import Mathlib

/-!
Verification of the shrimp water-quality repository's core:
the intent-routing conversational agent (src/src/agents/shrimp_agent.py)
and the multi-task prediction pipeline (src/src/pipeline/predict_pipeline.py).

Text is modelled as `List Char` (Unicode scalar values, as in Python).
Python's `str.lower` is modelled for ASCII plus the full Vietnamese alphabet
(the only scripts occurring in the agent's vocabulary); `str.strip` strips the
common ASCII whitespace characters; the regex word class `\w` is modelled as
ASCII alphanumerics, underscore, and non-ASCII code points (every character of
the agent's Vietnamese vocabulary is a word character under both this model
and Python's definition, and whitespace/ASCII punctuation is not).
-/

namespace ShrimpML

/-- Lowercase table for the Vietnamese alphabet (uppercase letter, lowercase letter). -/
def vnLowerTable : List (Char × Char) :=
  [('À','à'), ('Á','á'), ('Â','â'), ('Ã','ã'), ('È','è'), ('É','é'), ('Ê','ê'),
   ('Ì','ì'), ('Í','í'), ('Ò','ò'), ('Ó','ó'), ('Ô','ô'), ('Õ','õ'), ('Ù','ù'),
   ('Ú','ú'), ('Ý','ý'), ('Ă','ă'), ('Đ','đ'), ('Ĩ','ĩ'), ('Ũ','ũ'), ('Ơ','ơ'),
   ('Ư','ư'), ('Ạ','ạ'), ('Ả','ả'), ('Ấ','ấ'), ('Ầ','ầ'), ('Ẩ','ẩ'), ('Ẫ','ẫ'),
   ('Ậ','ậ'), ('Ắ','ắ'), ('Ằ','ằ'), ('Ẳ','ẳ'), ('Ẵ','ẵ'), ('Ặ','ặ'), ('Ẹ','ẹ'),
   ('Ẻ','ẻ'), ('Ẽ','ẽ'), ('Ế','ế'), ('Ề','ề'), ('Ể','ể'), ('Ễ','ễ'), ('Ệ','ệ'),
   ('Ỉ','ỉ'), ('Ị','ị'), ('Ọ','ọ'), ('Ỏ','ỏ'), ('Ố','ố'), ('Ồ','ồ'), ('Ổ','ổ'),
   ('Ỗ','ỗ'), ('Ộ','ộ'), ('Ớ','ớ'), ('Ờ','ờ'), ('Ở','ở'), ('Ỡ','ỡ'), ('Ợ','ợ'),
   ('Ụ','ụ'), ('Ủ','ủ'), ('Ứ','ứ'), ('Ừ','ừ'), ('Ử','ử'), ('Ữ','ữ'), ('Ự','ự'),
   ('Ỳ','ỳ'), ('Ỵ','ỵ'), ('Ỷ','ỷ'), ('Ỹ','ỹ')]

/-- Lowercase table for ASCII letters. -/
def asciiLowerTable : List (Char × Char) :=
  [('A','a'), ('B','b'), ('C','c'), ('D','d'), ('E','e'), ('F','f'), ('G','g'),
   ('H','h'), ('I','i'), ('J','j'), ('K','k'), ('L','l'), ('M','m'), ('N','n'),
   ('O','o'), ('P','p'), ('Q','q'), ('R','r'), ('S','s'), ('T','t'), ('U','u'),
   ('V','v'), ('W','w'), ('X','x'), ('Y','y'), ('Z','z')]

def lowerTable : List (Char × Char) := asciiLowerTable ++ vnLowerTable

/-- Python `str.lower` on one character (ASCII plus the Vietnamese alphabet,
the scripts occurring in the repository's text). -/
def charLower (c : Char) : Char := (lowerTable.lookup c).getD c

def pyLower (l : List Char) : List Char := l.map charLower

/-- Whitespace stripped by Python `str.strip()` (the ASCII whitespace characters). -/
def isPySpace (c : Char) : Bool :=
  c == ' ' || c == '\t' || c == '\n' || c == '\r' || c == '\x0b' || c == '\x0c'

/-- Python `str.strip()`. -/
def pyStrip (l : List Char) : List Char :=
  ((l.dropWhile isPySpace).reverse.dropWhile isPySpace).reverse

/-- Python substring test `pat in s`. -/
def containsSub (pat : List Char) : List Char → Bool
  | [] => pat.isEmpty
  | c :: s => pat.isPrefixOf (c :: s) || containsSub pat s

/-- `_norm_text` from shrimp_agent.py: `(s or "").strip().lower()`. -/
def normTextL (l : List Char) : List Char := pyLower (pyStrip l)

def normText (s : String) : String := ⟨normTextL s.data⟩

def containsStr (hay pat : String) : Bool := containsSub pat.data hay.data

/-- Greeting phrase list from `_is_greeting`. -/
def greetPhrases : List String :=
  ["hi", "hii", "hello", "helo", "hey", "chào", "chao", "xin chào", "xin chao", "alo", "a lô"]

/-- `_is_greeting`: exact match with a phrase, or the phrase followed by a space. -/
def isGreeting (text : String) : Bool :=
  let t := normTextL text.data
  greetPhrases.any fun p => t == p.data || (p.data ++ [' ']).isPrefixOf t

/-- Keyword list from `_is_analysis_only`. -/
def analysisKeys : List String :=
  ["phân tích", "phan tich", "đánh giá", "danh gia", "nhận xét", "nhan xet",
   "hiện trạng", "hien trang", "tình trạng", "tinh trang",
   "kết quả", "ket qua", "đang như thế nào", "dang nhu the nao", "phân loại", "phan loai", "review",
   "coi giúp", "coi dum", "coi sao", "coi thử", "coi thu"]

def isAnalysisOnly (text : String) : Bool :=
  let t := normTextL text.data
  analysisKeys.any fun k => containsSub k.data t

/-- Keyword list from `_is_advice`. -/
def adviceKeys : List String :=
  ["tư vấn", "tu van", "xử lý", "xu ly", "giải pháp", "giai phap", "khuyến nghị", "khuyen nghi",
   "nên làm", "nen lam", "cải thiện", "cai thien", "hướng dẫn", "huong dan",
   "kế hoạch", "ke hoach", "làm sao", "lam sao", "cách", "cach", "phải làm gì", "phai lam gi",
   "giúp", "giup", "cứu", "cuu"]

def isAdvice (text : String) : Bool :=
  let t := normTextL text.data
  adviceKeys.any fun k => containsSub k.data t

/-- Keyword list from `_is_symptom_question`. -/
def symptomKeys : List String :=
  ["dấu hiệu", "dau hieu", "triệu chứng", "trieu chung",
   "bơi", "boi", "bỏ ăn", "bo an", "đen mang", "den mang", "đứt râu", "dut rau",
   "mềm vỏ", "mem vo", "đỏ thân", "do than", "lờ đờ", "lo do", "nổi đầu", "noi dau",
   "chết", "chet", "đốm trắng", "dom trang", "gan tụy", "gan tuy", "phân trắng", "phan trang",
   "rụng râu", "rung rau", "rụng đuôi", "rung duoi", "đóng rong", "dong rong", "đóng nhớt", "dong nhot"]

/-- `_is_symptom_question`: needs a shrimp-reference token AND a symptom keyword. -/
def isSymptomQuestion (text : String) : Bool :=
  let t := normTextL text.data
  (containsSub "tôm".data t || containsSub "tom".data t)
    && symptomKeys.any fun k => containsSub k.data t

/-- Keyword list from `_is_smalltalk_or_meta`. -/
def metaKeys : List String :=
  ["bạn là ai", "ban la ai", "giới thiệu", "gioi thieu", "help", "giúp tôi", "giup toi",
   "hướng dẫn dùng", "huong dan dung"]

def isSmalltalkOrMeta (text : String) : Bool :=
  let t := normTextL text.data
  metaKeys.any fun k => containsSub k.data t

/-- `_rule_intent` from shrimp_agent.py. -/
def ruleIntent (text : String) : String :=
  let t : String := ⟨normTextL text.data⟩
  if t = "" then "unknown"
  else if isGreeting t then "greet"
  else if isSymptomQuestion t then "symptom"
  else if isSmalltalkOrMeta t then "meta"
  else
    let a := isAnalysisOnly t
    let b := isAdvice t
    if a && !b then "analysis"
    else if b && !a then "advice"
    else if a && b then "ambiguous"
    else "unknown"

/-- `_risk_to_priority` from shrimp_agent.py, on the two text fields it reads
(`pred.get("task1_text", "")` and `pred.get("task3_text", "")`, both strings in
every prediction dict the pipeline produces). -/
def riskToPriority (task1Text task3Text : String) : String :=
  let t1 := normTextL task1Text.data
  let t3 := normTextL task3Text.data
  if containsSub "nguy".data t1 || containsSub "không đạt".data t3 then "P1" else "P2"

/-- Scanner for Python `str.replace(pat, rep)`, structurally recursive on a
fuel bound.  The fuel never runs out when it starts at the string's length,
because each step consumes at least one character. -/
def replaceAllF (pat rep : List Char) : Nat → List Char → List Char
  | 0, l => l
  | _ + 1, [] => []
  | f + 1, c :: s =>
    if !pat.isEmpty && pat.isPrefixOf (c :: s) then
      rep ++ replaceAllF pat rep f ((c :: s).drop pat.length)
    else c :: replaceAllF pat rep f s

/-- Python `str.replace(pat, rep)`: replace all non-overlapping occurrences,
scanning left to right.  (The `!pat.isEmpty` guard only makes the scanner
total; the agent never replaces an empty pattern.) -/
def replaceAll (pat rep l : List Char) : List Char :=
  replaceAllF pat rep l.length l

/-- Word character for the regex class `\w`: ASCII alphanumerics, underscore,
and (approximating Unicode letters) every non-ASCII code point.  All characters
of the agent's Vietnamese vocabulary are word characters under this model and
under Python's, and ASCII whitespace/punctuation is not. -/
def isWordChar (c : Char) : Bool := c.isAlphanum || c == '_' || decide (128 ≤ c.toNat)

/-- Case-insensitive prefix test (regex `re.IGNORECASE` matching). -/
def ciPref (pat s : List Char) : Bool := (pyLower pat).isPrefixOf (pyLower s)

/-- `\b` holds before the scan position given the previous character. -/
def bdryOpt (prev : Option Char) : Bool :=
  match prev with
  | none => true
  | some c => !isWordChar c

/-- `\b` holds after a match given the remaining characters. -/
def bdryAfter (rest : List Char) : Bool :=
  match rest with
  | [] => true
  | c :: _ => !isWordChar c

/-- A `\b pat \b` regex match (IGNORECASE) starts at the current position.
`prev` is the character before the position (none at the string start).
All patterns used start and end with word characters, so the two `\b`
constraints amount to: previous character non-word, next character after the
match non-word. -/
def wMatchAt (pat : List Char) (prev : Option Char) (s : List Char) : Bool :=
  ciPref pat s && bdryOpt prev && bdryAfter (s.drop pat.length)

/-- `re.sub(r"\b pat \b", rep, s, flags=re.IGNORECASE)`: scan left to right,
replacing non-overlapping boundary-delimited matches.  Boundaries are judged on
the original characters, as the regex engine does. -/
def subWordAuxF (pat rep : List Char) : Nat → Option Char → List Char → List Char
  | 0, _, l => l
  | _ + 1, _, [] => []
  | f + 1, prev, c :: s =>
    if !pat.isEmpty && wMatchAt pat prev (c :: s) then
      rep ++ subWordAuxF pat rep f (((c :: s).take pat.length).getLast?) ((c :: s).drop pat.length)
    else c :: subWordAuxF pat rep f (some c) s

def subWordAux (pat rep : List Char) (prev : Option Char) (l : List Char) : List Char :=
  subWordAuxF pat rep l.length prev l

def subWord (pat rep : List Char) (s : List Char) : List Char :=
  subWordAux pat rep none s

/-- `_localize_text` from shrimp_agent.py: pronoun substitutions (plain
substring replacement), three word-boundary dialect substitutions, then strip. -/
def localizeTextL (l : List Char) : List Char :=
  if l.isEmpty then []
  else
    pyStrip (subWord "nghiêm trọng".data "căng".data
      (subWord "nhanh".data "lẹ".data
        (subWord "không".data "hông".data
          (replaceAll "tôi".data "em".data
            (replaceAll "Tôi".data "Em".data
              (replaceAll "bạn".data "mình".data
                (replaceAll "Bạn".data "Mình".data l)))))))

def localizeText (s : String) : String := ⟨localizeTextL s.data⟩

/-! ### Infrastructure for reasoning about the localization transform -/

def allWordChars (l : List Char) : Bool := l.all isWordChar

/-- Case-insensitive substring test. -/
def ciContains (pat s : List Char) : Bool := containsSub (pyLower pat) (pyLower s)

/-- The character preceding the current scan position after consuming `b`,
starting from `prev`. -/
def lastOpt (prev : Option Char) (b : List Char) : Option Char :=
  match b.getLast? with
  | Option.some c => Option.some c
  | Option.none => prev

/-- A boundary-delimited case-insensitive match of `pat` starts somewhere
inside `x`, where the text continues with `rest` after `x`. -/
def matchStartsIn (pat : List Char) (prev : Option Char) : List Char → List Char → Bool
  | [], _ => false
  | c :: b, rest => wMatchAt pat prev (c :: (b ++ rest)) || matchStartsIn pat (some c) b rest

/-- A boundary-delimited case-insensitive match of `pat` starts somewhere in
the text. -/
def hasWordMatch (pat : List Char) (prev : Option Char) : List Char → Bool
  | [] => false
  | c :: s => wMatchAt pat prev (c :: s) || hasWordMatch pat (some c) s

/-- The span-freedom conditions under which the replacement text cannot help
form an occurrence of `q` in a `replaceAll`-style output: `q` does not occur
in `rep`, `rep` does not occur in `q`, no nonempty prefix of `rep` is a
suffix of `q`, and no nonempty suffix of `rep` is a prefix of `q`. -/
def repSpanFree (q rep : List Char) : Bool :=
  !containsSub q rep && !containsSub rep q &&
    ((List.range (rep.length + 1)).all fun k =>
      decide (k = 0) || !((rep.take k).isSuffixOf q)) &&
    ((List.range (rep.length + 1)).all fun k =>
      decide (k = 0) || !((rep.drop (rep.length - k)).isPrefixOf q))

/-- Case-insensitive agreement of two texts on their overlap. -/
def ciAgree (x r : List Char) : Bool :=
  pyLower (x.take r.length) == pyLower (r.take x.length)

/-- The first character exists and is a word character. -/
def headWordOk (l : List Char) : Bool :=
  match l.head? with
  | Option.some c => isWordChar c
  | Option.none => false

/-- The last character exists and is a word character. -/
def lastWordOk (l : List Char) : Bool :=
  match l.getLast? with
  | Option.some c => isWordChar c
  | Option.none => false

/-- Span conditions ruling out a boundary-delimited case-insensitive match of
`q` that begins strictly before a replacement block and reaches into it: for
every split position `j` of `q`, either the character of `q` just before the
split is a word character (it would have to match the non-word character that
precedes every replacement block), or the rest of `q` disagrees
case-insensitively with `rep` on their overlap, or `q` continues past `rep`
with a word character (it would have to match the non-word character that
follows every replacement block). -/
def wSpanOK (q rep : List Char) : Bool :=
  (List.range q.length).all fun j =>
    lastWordOk (q.take j) ||
    !ciAgree (q.drop j) rep ||
    headWordOk ((q.drop j).drop rep.length)

/-- The block structure `replaceAll pat rep` imposes: the input splits into
pattern-free blocks separated by pattern occurrences, and the output is the
same blocks separated by the replacement text. -/
inductive RChunks (pat rep : List Char) : List Char → List Char → Prop where
  | last (b : List Char) (hb : containsSub pat b = false) : RChunks pat rep b b
  | step (b t u : List Char) (hb : containsSub pat b = false)
      (hr : RChunks pat rep t u) :
      RChunks pat rep (b ++ pat ++ t) (b ++ rep ++ u)

/-- The block structure `subWordAux pat rep prev` imposes: blocks in which no
boundary-delimited match starts, separated by matched text `m` (boundaries
judged on the original neighbouring characters), replaced by `rep`. -/
inductive WChunks (pat rep : List Char) : Option Char → List Char → List Char → Prop where
  | last (prev : Option Char) (b : List Char) (hb : hasWordMatch pat prev b = false) :
      WChunks pat rep prev b b
  | step (prev : Option Char) (b m t u : List Char)
      (hb : matchStartsIn pat prev b (m ++ t) = false)
      (hm : wMatchAt pat (lastOpt prev b) (m ++ t) = true)
      (hlen : m.length = pat.length)
      (hr : WChunks pat rep (lastOpt (lastOpt prev b) m) t u) :
      WChunks pat rep prev (b ++ m ++ t) (b ++ rep ++ u)

/-! ### Multi-task prediction pipeline (src/src/pipeline/predict_pipeline.py)

Floating-point numbers are idealised as real numbers; `round(x, n)` is the
exact half-up rounding `round (10^n * x) / 10^n` (`np.round`/Python `round`
differ from it only on exact ties, which the arguments below avoid). -/

noncomputable def round2R (x : ℝ) : ℝ := ((round (100 * x) : ℤ) : ℝ) / 100

noncomputable def round3R (x : ℝ) : ℝ := ((round (1000 * x) : ℤ) : ℝ) / 1000

/-- `risk_map` lookup with the `"Không xác định"` default. -/
def riskMap (y : ℤ) : String :=
  if y = 0 then "An toàn" else if y = 1 then "Nguy cơ" else "Không xác định"

/-- `env_map` lookup with the `"Không xác định"` default. -/
def envMap (y : ℤ) : String :=
  if y = 0 then "Môi trường không đạt" else if y = 1 then "Môi trường đạt" else "Không xác định"

/-- `algae_map` lookup with the `"Không xác định"` default. -/
def algaeMap (y : ℤ) : String :=
  if y = 0 then "Điều kiện tảo kém" else if y = 1 then "Điều kiện tảo tốt" else "Không xác định"

/-- The result dict built by `PredictionPipeline.predict`. -/
structure PredictionResult where
  task1_label : ℤ
  task1_text : String
  task2_vibrio_log : ℝ
  task2_vibrio_est : ℝ
  task3_label : ℤ
  task3_text : String
  task4_label : ℤ
  task4_text : String

/-- The result dict of `predict` as a function of the raw model outputs
`y1 = int(y1[0])`, `y2 = float(y2[0])`, `y3`, `y4`:
`task2_vibrio_log = round(y2, 3)` and `task2_vibrio_est = round(exp(y2), 2)`
(the exponential is applied to the raw `y2`, not to the rounded log). -/
noncomputable def predictResult (y1 : ℤ) (y2 : ℝ) (y3 y4 : ℤ) : PredictionResult :=
  { task1_label := y1
    task1_text := riskMap y1
    task2_vibrio_log := round3R y2
    task2_vibrio_est := round2R (Real.exp y2)
    task3_label := y3
    task3_text := envMap y3
    task4_label := y4
    task4_text := algaeMap y4 }

/-- Pipeline stages distinguished by the error-handling design. -/
inductive Stage where
  | artifactLoad
  | preprocessTransform
  | modelPredict
  deriving DecidableEq

/-- Modelled from the spec: `CustomException` (src/exception.py is not in the
snapshot; only its import sites are).  Per the spec it is the single domain
error wrapping the underlying cause together with information identifying the
failing pipeline stage (in the code, recovered from the traceback captured via
`sys`). -/
structure CustomException (ε : Type) where
  cause : ε
  stage : Stage

/-- `PredictionPipeline.__init__`: the five artifact loads inside one
`try/except` that re-raises any failure as `CustomException`. -/
def pipelineInit {A ε : Type} (pre m1 m2 m3 m4 : Except ε A) :
    Except (CustomException ε) (A × A × A × A × A) :=
  match pre with
  | .error e => .error ⟨e, .artifactLoad⟩
  | .ok p =>
    match m1 with
    | .error e => .error ⟨e, .artifactLoad⟩
    | .ok a1 =>
      match m2 with
      | .error e => .error ⟨e, .artifactLoad⟩
      | .ok a2 =>
        match m3 with
        | .error e => .error ⟨e, .artifactLoad⟩
        | .ok a3 =>
          match m4 with
          | .error e => .error ⟨e, .artifactLoad⟩
          | .ok a4 => .ok (p, a1, a2, a3, a4)

/-- `PredictionPipeline.predict`: preprocessor transform, then the four model
predictions, all inside one `try/except` that re-raises any failure as
`CustomException`; on success the result dict is built from the outputs. -/
noncomputable def pipelinePredict {γ V ε : Type}
    (pre : γ → Except ε V)
    (m1 : V → Except ε ℤ) (m2 : V → Except ε ℝ) (m3 m4 : V → Except ε ℤ)
    (inputDf : γ) : Except (CustomException ε) PredictionResult :=
  match pre inputDf with
  | .error e => .error ⟨e, .preprocessTransform⟩
  | .ok x =>
    match m1 x with
    | .error e => .error ⟨e, .modelPredict⟩
    | .ok y1 =>
      match m2 x with
      | .error e => .error ⟨e, .modelPredict⟩
      | .ok y2 =>
        match m3 x with
        | .error e => .error ⟨e, .modelPredict⟩
        | .ok y3 =>
          match m4 x with
          | .error e => .error ⟨e, .modelPredict⟩
          | .ok y4 => .ok (predictResult y1 y2 y3 y4)

/-! ### The conversational agent `ShrimpAgent.answer` (src/src/agents/shrimp_agent.py)

Python dict values reaching the agent are modelled by `PyVal`; dicts by
association lists (first binding wins, as after Python dict construction).
The two outbound collaborators are explicit: `llm` models
`self.llm.invoke(messages).content` (`.error` = the call raised, `.ok none` =
`content` was `None`), `qa` models the optional `self.qa_chain` with
`invoke({"query": q})["result"]`.  `jsonIntent` abstracts the standard-library
`json.loads(out)` + `j.get("intent", "")` step: `none` models any exception
raised there, `some s` the extracted value (before normalization).  `sel`
resolves the `random.choice` in `_pick`, and `showR` renders a float the way
a Python f-string would. -/

inductive PyVal where
  | none
  | str (s : String)
  | int (n : ℤ)
  | real (x : ℝ)

/-- `f"{v}"` for a dict value (floats rendered by the ambient `showR`). -/
def pyShow (showR : ℝ → String) : PyVal → String
  | .none => "None"
  | .str s => s
  | .int n => toString n
  | .real x => showR x

def WaterDict : Type := List (String × PyVal)

/-- The chemistry keys checked by `_has_any_water_data`. -/
def chemKeys : List String :=
  ["NHIET_DO", "PH", "DO", "NO2", "NH4", "DO_MAN", "DO_TRONG", "PO43", "NO3", "COD", "DO_KIEM"]

/-- `v in [None, "", "None"]` under Python equality. -/
def isNoneLike : PyVal → Bool
  | .none => true
  | .str s => s == "" || s == "None"
  | _ => false

/-- `_has_any_water_data`. -/
def hasAnyWaterData (w : List (String × PyVal)) : Bool :=
  chemKeys.any fun k =>
    match w.lookup k with
    | Option.some v => !isNoneLike v
    | Option.none => false

/-- `w.get(k)` (default `None`). -/
def dictGet (w : List (String × PyVal)) (k : String) : PyVal := (w.lookup k).getD PyVal.none

/-- `w.get(k, d)`. -/
def dictGetD (w : List (String × PyVal)) (k : String) (d : PyVal) : PyVal := (w.lookup k).getD d

/-- `_norm_text(pred.get(k, ""))`'s argument as a string: the agent only ever
reads string (or absent/None) values here — every prediction dict the pipeline
builds stores strings under the `_text` keys. -/
def dictGetStr (w : List (String × PyVal)) (k : String) : String :=
  match w.lookup k with
  | Option.some (.str s) => s
  | _ => ""

/-- `_pick`: `random.choice([a for a in arr if a])`, the choice resolved by `sel`. -/
def pick (sel : Nat) (arr : List String) : String :=
  let arr2 := arr.filter fun a => a ≠ ""
  arr2.getD (sel % arr2.length) ""

def pyStripS (s : String) : String := ⟨pyStrip s.data⟩

/-- `_render_compact` (every entry of `lines` is non-None, so the
`[x for x in lines if x is not None]` filter keeps them all). -/
def renderCompact (showR : ℝ → String) (water pred : List (String × PyVal)) : String :=
  let sh := pyShow showR
  let vibText := sh (dictGetD pred "task1_text" (.str "Không có"))
  let vibEst := sh (dictGetD pred "task2_vibrio_est" (.str "Không có"))
  let envText := sh (dictGetD pred "task3_text" (.str "Không có"))
  let algaeText := sh (dictGetD pred "task4_text" (.str "Không có"))
  let priority := riskToPriority (dictGetStr pred "task1_text") (dictGetStr pred "task3_text")
  let lines : List String :=
    ["DỮ LIỆU AO (tóm tắt)",
     "- Điểm: " ++ sh (dictGet water "DIEM_QUAN_TRAC") ++ " | Xã/Huyện: " ++
       sh (dictGet water "XA") ++ "/" ++ sh (dictGet water "HUYEN"),
     "- Nhiệt độ: " ++ sh (dictGet water "NHIET_DO") ++ " | pH: " ++
       sh (dictGet water "PH") ++ " | DO: " ++ sh (dictGet water "DO"),
     "- Độ mặn: " ++ sh (dictGet water "DO_MAN") ++ " | Độ trong: " ++
       sh (dictGet water "DO_TRONG") ++ " | Kiềm: " ++ sh (dictGet water "DO_KIEM"),
     "- NO2: " ++ sh (dictGet water "NO2") ++ " | NO3: " ++ sh (dictGet water "NO3") ++
       " | NH4: " ++ sh (dictGet water "NH4") ++ " | PO43: " ++ sh (dictGet water "PO43") ++
       " | COD: " ++ sh (dictGet water "COD"),
     "",
     "KẾT QUẢ MÔ HÌNH (4 TASK)",
     "- Vibrio: " ++ vibText,
     "- Vibrio ước lượng: ~" ++ vibEst ++ " CFU/ml",
     "- Môi trường: " ++ envText,
     "- Tảo thức ăn: " ++ algaeText,
     "- Mức ưu tiên: " ++ priority]
  pyStripS (String.intercalate "\n" lines)

/-- JSON string escaping as `json.dumps` (ensure_ascii=False) performs it on
the characters that can occur here. -/
def jsonEscChar (c : Char) : List Char :=
  if c == '"' then ['\\', '"']
  else if c == '\\' then ['\\', '\\']
  else if c == '\n' then ['\\', 'n']
  else if c == '\t' then ['\\', 't']
  else if c == '\r' then ['\\', 'r']
  else [c]

def jsonStr (s : String) : String :=
  "\"" ++ (⟨s.data.foldr (fun c acc => jsonEscChar c ++ acc) []⟩ : String) ++ "\""

def jsonBool (b : Bool) : String := if b then "true" else "false"

/-- The system prompt of `_llm_intent` (after `.strip()`). -/
def intentSys : String :=
  "Bạn là bộ phân loại ý định hội thoại cho chatbot nuôi tôm (miền Tây).\nChỉ trả về JSON 1 dòng, không thêm chữ khác.\nCác nhãn:\n- greet\n- analysis (phân tích hiện trạng nước, không giải pháp)\n- advice (tư vấn xử lý theo nước/ao)\n- symptom (dấu hiệu tôm bất thường/bệnh)\n- knowledge (kiến thức chung: tảo, pH, DO, Vibrio... không cần dữ liệu)\n- meta (hỏi cách dùng/giới thiệu bot)"

/-- `json.dumps({"question": ..., "has_water_data": ..., "has_prediction": ...}, ensure_ascii=False)`. -/
def intentUserContent (q : String) (hd hp : Bool) : String :=
  "\x7b\"question\": " ++ jsonStr q ++ ", \"has_water_data\": " ++ jsonBool hd ++
    ", \"has_prediction\": " ++ jsonBool hp ++ "\x7d"

def intentMsgs (q : String) (hd hp : Bool) : List (String × String) :=
  [("system", intentSys), ("user", intentUserContent q hd hp)]

/-- The agent's collaborators and nondeterminism, made explicit. -/
structure AgentCtx (ε : Type) where
  llm : List (String × String) → Except ε (Option String)
  qa : Option (String → Except ε (Option String))
  jsonIntent : String → Option String
  sel : Nat
  showR : ℝ → String

def allowedIntents : List String :=
  ["greet", "analysis", "advice", "symptom", "knowledge", "meta"]

/-- `ShrimpAgent._llm_intent`.  The `self.llm.invoke(...)` call sits *outside*
the `try`, so a raising call propagates; only the parse step
(`json.loads` + `.get` + membership check) is guarded, defaulting to
`"knowledge"`. -/
def llmIntentModel {ε : Type} (ctx : AgentCtx ε) (q : String) (hd hp : Bool) :
    Except ε String :=
  match ctx.llm (intentMsgs q hd hp) with
  | .error e => .error e
  | .ok content =>
    let out := pyStripS (content.getD "")
    match ctx.jsonIntent out with
    | Option.none => .ok "knowledge"
    | Option.some it0 =>
      let it := normText it0
      if allowedIntents.contains it then .ok it else .ok "knowledge"

/-- The intent `answer` acts on: the rule intent, replaced by the fallback
classification when the rules said `unknown` or `ambiguous`. -/
def resolvedIntentE {ε : Type} (ctx : AgentCtx ε) (q : String) (hd hp : Bool) :
    Except ε String :=
  let it0 := ruleIntent q
  if it0 == "unknown" || it0 == "ambiguous" then llmIntentModel ctx q hd hp else .ok it0

def greetReply1 : String :=
  "Dạ chào mình 👋 Mình muốn em **phân tích nước**, **tư vấn xử lý**, hay **hỏi dấu hiệu tôm** nè?"

def greetReply2 : String :=
  "Chào bà con 👋 Mình hỏi em kiểu nào: **phân tích**, **tư vấn**, hay **dấu hiệu tôm** nghen?"

def metaReply1 : String :=
  "Dạ em hỗ trợ 3 kiểu: **phân tích nước** (không giải pháp), **tư vấn xử lý**, và **hỏi dấu hiệu tôm bất thường**. Mình cứ hỏi tự nhiên nghen."

def metaReply2 : String :=
  "Mình cứ nhập số nước rồi bấm **Dự đoán** để em coi theo mô hình. Còn hỏi dấu hiệu tôm/bệnh thì hỏi trực tiếp cũng được."

def analysisMissingMsg : String :=
  "Dạ muốn **phân tích nước** thì mình nhập số liệu rồi bấm **Dự đoán** trước nghen, để em coi đúng theo ao mình."

def adviceMissingMsg : String :=
  "Dạ muốn **tư vấn xử lý theo ao** thì mình nhập số liệu rồi bấm **Dự đoán** trước nghen. Còn nếu hỏi **kiến thức chung** thì mình hỏi luôn cũng được."

def symptomSys : String :=
  "Bạn là trợ lý cho người nuôi tôm quảng canh ở Cà Mau, nói kiểu miền Tây, dễ hiểu.\nBắt buộc:\n- Tập trung đúng dấu hiệu tôm/bệnh, không tự chuyển sang phân tích nước nếu người dùng không đưa số.\n- Trả lời theo khung 4 mục.\n- Không hướng dẫn dùng kháng sinh/hóa chất theo liều.\n- Nếu khẩn (tôm chết nhanh/nổi đầu nhiều) phải cảnh báo và khuyên liên hệ cán bộ địa phương."

def symptomUser (question : String) : String :=
  "Câu hỏi: " ++ question ++ "\n\nTrả lời đúng format:\n\n**1) Mình đang thấy gì**\n- ...\n\n**2) Khả năng đang gặp (2–4)**\n- A: ...\n- B: ...\n- C: ...\n\n**3) Em hỏi thêm 1–2 câu để xác định**\n- Câu 1: ...\n- Câu 2: ...\n\n**4) Mình coi/kiểm tra an toàn tại ao**\n- ..."

def symptomMsgs (question : String) : List (String × String) :=
  [("system", symptomSys), ("user", symptomUser question)]

def analysisSys : String :=
  "Bạn là trợ lý PHÂN TÍCH môi trường nuôi tôm quảng canh ở Cà Mau, nói kiểu miền Tây.\nBắt buộc:\n- CHỈ phân tích hiện trạng dựa trên dữ liệu và kết quả mô hình.\n- Tuyệt đối KHÔNG đưa giải pháp/khuyến nghị/kế hoạch/hướng dẫn.\n- Tránh các từ/cụm: xử lý, nên làm, khuyến nghị, đề xuất, hướng dẫn, kế hoạch, liều, dùng, bổ sung, tăng, giảm.\n- Nếu thiếu dữ liệu quan trọng, hỏi tối đa 2 câu ngắn."

def analysisUser (compact question : String) : String :=
  compact ++ "\n\nCâu hỏi: " ++ question ++ "\n\nTrả lời đúng format:\n\n**1) Đánh giá**\n- ...\n\n**2) Các điểm đạt (tối đa 5)**\n- ...\n\n**3) Các điểm lệch ngưỡng**\n- từng chỉ số: (hiện tại | chuẩn | hệ quả/rủi ro)\n\n**4) Rủi ro tổng hợp theo 4 task**\n- ..."

def analysisMsgs (compact question : String) : List (String × String) :=
  [("system", analysisSys), ("user", analysisUser compact question)]

/-- The retrieval query string of the advice branch. -/
def ragQuery : String :=
  "Tóm tắt tối đa 6 gạch đầu dòng về xử lý Vibrio, DO thấp, pH lệch, NO2/NH4 cao, quản lý tảo trong nuôi tôm quảng canh."

/-- The advice branch's retrieval step: absent chain, raising query, or empty
result all yield the empty snippet (`except Exception: rag_snippet = ""`). -/
def ragSnippetOf {ε : Type} (qa : Option (String → Except ε (Option String))) : String :=
  match qa with
  | Option.none => ""
  | Option.some f =>
    match f ragQuery with
    | .error _ => ""
    | .ok r => pyStripS (r.getD "")

def adviceSys : String :=
  "Bạn là trợ lý TƯ VẤN nuôi tôm quảng canh ở Cà Mau, nói kiểu miền Tây, dễ hiểu.\nBắt buộc:\n- Bám sát dữ liệu ao + 4 task.\n- Nói rõ chỉ số lệch ngưỡng và vì sao nguy.\n- Gạch đầu dòng, ngắn, dễ làm theo.\n- Có ưu tiên P1/P2/P3 và mốc thời gian.\n- Không khuyến khích lạm dụng kháng sinh/hóa chất."

def adviceUserTail (question : String) : String :=
  "\n\nCâu hỏi: " ++ question ++ "\n\nTrả lời đúng format:\n\n**1) Đánh giá nhanh**\n- ...\n\n**2) Vấn đề chính**\n- từng chỉ số: (hiện tại | chuẩn | vì sao nguy)\n\n**3) Kế hoạch theo ưu tiên**\n- P1 (24h): ...\n- P2 (3 ngày): ...\n- P3 (1–2 tuần): ...\n\n**4) Lưu ý an toàn sinh học**\n- ..."

def adviceUser (compact ragSnippet question : String) : String :=
  compact ++ "\n\nTham khảo tài liệu (nếu có):\n" ++
    (if ragSnippet = "" then "(không có)" else ragSnippet) ++ adviceUserTail question

def adviceMsgs (compact ragSnippet question : String) : List (String × String) :=
  [("system", adviceSys), ("user", adviceUser compact ragSnippet question)]

def knowledgeSys : String :=
  "Bạn là trợ lý kỹ thuật nuôi tôm quảng canh ở Cà Mau, nói kiểu miền Tây, dễ hiểu.\nBắt buộc:\n- Trả lời kiến thức chung theo câu hỏi (tảo, pH, DO, Vibrio, môi trường...).\n- Không bắt người dùng phải “phân tích/tư vấn” nếu họ hỏi chung.\n- Nếu cần thông tin để sát thực tế, hỏi tối đa 2 câu.\n- Không khuyến khích lạm dụng kháng sinh/hóa chất."

def knowledgeUser (question : String) : String :=
  "Câu hỏi: " ++ question ++ "\n\nTrả lời gọn, dễ hiểu, đúng giọng miền Tây. Nếu câu hỏi đang thiếu thông tin để kết luận chắc, hỏi lại tối đa 2 câu."

def knowledgeMsgs (question : String) : List (String × String) :=
  [("system", knowledgeSys), ("user", knowledgeUser question)]

/-- `resp = self.llm.invoke(msgs); return _localize_text((resp.content or "").strip())`:
the pattern every language-model reply branch ends with. -/
def llmReply {ε : Type} (llm : List (String × String) → Except ε (Option String))
    (msgs : List (String × String)) : Except ε String :=
  match llm msgs with
  | .error e => .error e
  | .ok c => .ok (localizeText (pyStripS (c.getD "")))

/-- Number of `self.llm.invoke` calls the intent-resolution step performs. -/
def intentCalls (question : String) : Nat :=
  if ruleIntent question == "unknown" || ruleIntent question == "ambiguous" then 1 else 0

/-- The `if`-cascade of `answer` below the intent resolution, given the
resolved intent `it`. -/
def answerWith {ε : Type} (ctx : AgentCtx ε) (question : String)
    (water pred : List (String × PyVal)) (it : String) : Except ε String × Nat :=
  let hasData := hasAnyWaterData water
  let hasPred := !pred.isEmpty
  let nIntent := intentCalls question
  if it == "greet" then (.ok (pick ctx.sel [greetReply1, greetReply2]), nIntent)
  else if it == "meta" then (.ok (pick ctx.sel [metaReply1, metaReply2]), nIntent)
  else if (it == "analysis" || it == "advice") && (!hasData || !hasPred) then
    (if it == "analysis" then (.ok analysisMissingMsg, nIntent)
     else (.ok adviceMissingMsg, nIntent))
  else if it == "symptom" then
    (llmReply ctx.llm (symptomMsgs question), nIntent + 1)
  else if it == "analysis" then
    (llmReply ctx.llm (analysisMsgs (renderCompact ctx.showR water pred) question), nIntent + 1)
  else if it == "advice" then
    (llmReply ctx.llm
      (adviceMsgs (renderCompact ctx.showR water pred) (ragSnippetOf ctx.qa) question),
     nIntent + 1)
  else
    (llmReply ctx.llm (knowledgeMsgs question), nIntent + 1)

/-- `ShrimpAgent.answer`.  The second component counts the `self.llm.invoke`
calls the invocation performs (intent fallback plus at most one reply call);
the retrieval query is not a language-model call.  A raising fallback
classification aborts `answer` with the exception. -/
def answer {ε : Type} (ctx : AgentCtx ε) (question : String)
    (water pred : List (String × PyVal)) : Except ε String × Nat :=
  match resolvedIntentE ctx question (hasAnyWaterData water) (!pred.isEmpty) with
  | .error e => (.error e, intentCalls question)
  | .ok it => answerWith ctx question water pred it

/-- `_has_any_water_data`'s negation as a checkable condition: every chemistry
key is absent or bound to `None`, `""`, or `"None"`. -/
def noWaterValues (w : List (String × PyVal)) : Bool :=
  chemKeys.all fun k =>
    match w.lookup k with
    | Option.some v => isNoneLike v
    | Option.none => true

/-- A context whose language-model collaborator always raises. -/
def ctxFailLLM : AgentCtx ℕ :=
  { llm := fun _ => .error 7
    qa := Option.none
    jsonIntent := fun _ => Option.none
    sel := 0
    showR := fun _ => "" }

/-- A context whose fallback call succeeds but returns unparseable output. -/
def ctxParseFail : AgentCtx ℕ :=
  { llm := fun _ => .ok (Option.some "oops")
    qa := Option.none
    jsonIntent := fun _ => Option.none
    sel := 0
    showR := fun _ => "" }

/-- A context whose fallback call classifies every question as analysis. -/
def ctxIntentAnalysis : AgentCtx ℕ :=
  { llm := fun _ => .ok (Option.some "x")
    qa := Option.none
    jsonIntent := fun _ => Option.some "analysis"
    sel := 0
    showR := fun _ => "" }

/-- A plain context (LLM replies, no retrieval). -/
def ctxPlain : AgentCtx ℕ :=
  { llm := fun _ => .ok (Option.some "OK")
    qa := Option.none
    jsonIntent := fun _ => Option.none
    sel := 0
    showR := fun _ => "" }

/-- A context whose retrieval chain is present but raises on every query. -/
def ctxQaFail : AgentCtx ℕ :=
  { llm := fun _ => .ok (Option.some "OK")
    qa := Option.some fun _ => .error 9
    jsonIntent := fun _ => Option.none
    sel := 0
    showR := fun _ => "" }

/-- A water dict whose chemistry values are all None-like. -/
def waterNoneLike : List (String × PyVal) :=
  [("PH", PyVal.str "None"), ("DO", PyVal.none), ("NO2", PyVal.str "")]

/-- A water dict with one genuine chemistry reading. -/
def waterSome : List (String × PyVal) := [("PH", PyVal.str "7.5")]

/-- A non-empty prediction dict. -/
def predPresent : List (String × PyVal) := [("task1_text", PyVal.str "Nguy cơ")]

example : localizeText "Bạn không nên làm nhanh" = "Mình hông nên làm lẹ" := by decide
example : localizeText "Tôi thấy tình hình nghiêm trọng" = "Em thấy tình hình căng" := by decide
example : localizeText "khôngkhông" = "khôngkhông" := by decide
example : localizeText "  Bạn ơi  " = "Mình ơi" := by decide
example : ruleIntent "phân tích giúp em" = "ambiguous" := by decide
example : ruleIntent "phân tích" = "analysis" := by decide
example : ruleIntent "tư vấn" = "advice" := by decide
example : ruleIntent "hi" = "greet" := by decide
example : ruleIntent "history" = "unknown" := by decide
example : ruleIntent "" = "unknown" := by decide
example : riskToPriority "Nguy cơ" "Môi trường đạt" = "P1" := by decide
example : riskToPriority "An toàn" "Môi trường đạt" = "P2" := by decide
example : riskToPriority "An toàn" "Môi trường không đạt" = "P1" := by decide
example : riskToPriority "Không xác định" "Không xác định" = "P2" := by decide

/-! ### Basic lemmas about the string primitives -/

theorem lookup_eq_none_of_forall {α β : Type} [BEq α] (l : List (α × β)) (c : α)
    (h : ∀ p ∈ l, (c == p.1) = false) : l.lookup c = none := by
  induction l with
  | nil => rfl
  | cons a l ih =>
    rw [List.lookup, h a (by simp)]
    exact ih fun p hp => h p (by simp [hp])

theorem lookup_eq_some_mem {α β : Type} [BEq α] [LawfulBEq α] {l : List (α × β)} {c : α}
    {d : β} (h : l.lookup c = some d) : (c, d) ∈ l := by
  induction l with
  | nil => simp [List.lookup] at h
  | cons a l ih =>
    rw [List.lookup] at h
    by_cases hc : c == a.1
    · rw [hc] at h
      have : a = (c, d) := by
        obtain ⟨a1, a2⟩ := a
        simp at h hc
        simp [hc, h]
      simp [this]
    · rw [Bool.not_eq_true] at hc
      rw [hc] at h
      exact List.mem_cons_of_mem _ (ih h)

set_option maxRecDepth 8192 in
theorem lowerTable_values_fixed : ∀ p ∈ lowerTable, lowerTable.lookup p.2 = none := by decide

theorem charLower_idem (c : Char) : charLower (charLower c) = charLower c := by
  unfold charLower
  cases h : lowerTable.lookup c with
  | none => rw [Option.getD_none, h, Option.getD_none]
  | some d =>
    rw [Option.getD_some]
    have hmem : (c, d) ∈ lowerTable := lookup_eq_some_mem h
    rw [lowerTable_values_fixed (c, d) hmem, Option.getD_none]

theorem isPySpace_charLower (c : Char) : isPySpace (charLower c) = isPySpace c := by
  unfold charLower
  cases h : lowerTable.lookup c with
  | none => rw [Option.getD_none]
  | some d =>
    rw [Option.getD_some]
    have hmem : (c, d) ∈ lowerTable := lookup_eq_some_mem h
    have hboth : ∀ p ∈ lowerTable, isPySpace p.1 = false ∧ isPySpace p.2 = false := by decide
    rw [(hboth _ hmem).1, (hboth _ hmem).2]

theorem pyLower_idem (l : List Char) : pyLower (pyLower l) = pyLower l := by
  simp only [pyLower, List.map_map]
  exact List.map_congr_left fun c _ => charLower_idem c

theorem pyStrip_eq_rdrop (l : List Char) :
    pyStrip l = List.rdropWhile isPySpace (List.dropWhile isPySpace l) := rfl

theorem pyStrip_pyLower (l : List Char) : pyStrip (pyLower l) = pyLower (pyStrip l) := by
  have hcomp : (isPySpace ∘ charLower) = isPySpace := funext fun c => isPySpace_charLower c
  simp only [pyStrip, pyLower, List.dropWhile_map, hcomp, ← List.map_reverse,
    List.dropWhile_map]

theorem dropWhile_head?_not {p : α → Bool} {l : List α} {c : α}
    (h : (List.dropWhile p l).head? = some c) : p c = false := by
  induction l with
  | nil => simp [List.dropWhile] at h
  | cons a l ih =>
    rw [List.dropWhile_cons] at h
    by_cases hp : p a
    · rw [if_pos hp] at h
      exact ih h
    · rw [if_neg hp] at h
      simp only [List.head?_cons, Option.some_inj] at h
      rw [← h]
      exact Bool.not_eq_true _ ▸ hp

theorem pyStrip_head?_not {l : List Char} {c : Char}
    (h : (pyStrip l).head? = some c) : isPySpace c = false := by
  obtain ⟨t, ht⟩ := List.rdropWhile_prefix isPySpace (List.dropWhile isPySpace l)
  refine dropWhile_head?_not (l := l) (c := c) ?_
  rw [← ht]
  rw [pyStrip_eq_rdrop] at h
  cases hs : List.rdropWhile isPySpace (List.dropWhile isPySpace l) with
  | nil => rw [hs] at h; cases h
  | cons a s =>
    rw [hs] at h
    simp only [List.head?_cons, Option.some_inj] at h
    simp [h]

theorem pyStrip_idem (l : List Char) : pyStrip (pyStrip l) = pyStrip l := by
  by_cases h : pyStrip l = []
  · rw [h]; rfl
  · have h1 : List.dropWhile isPySpace (pyStrip l) = pyStrip l := by
      cases hs : pyStrip l with
      | nil => exact absurd hs h
      | cons a s =>
        have ha : isPySpace a = false := pyStrip_head?_not (by rw [hs]; rfl)
        rw [List.dropWhile_cons, if_neg (by simp [ha])]
    calc pyStrip (pyStrip l)
        = List.rdropWhile isPySpace (List.dropWhile isPySpace (pyStrip l)) := rfl
      _ = List.rdropWhile isPySpace (pyStrip l) := by rw [h1]
      _ = List.rdropWhile isPySpace (List.rdropWhile isPySpace (List.dropWhile isPySpace l)) := rfl
      _ = List.rdropWhile isPySpace (List.dropWhile isPySpace l) := List.rdropWhile_idempotent _ _
      _ = pyStrip l := rfl

theorem normTextL_idem (l : List Char) : normTextL (normTextL l) = normTextL l := by
  unfold normTextL
  rw [pyStrip_pyLower, pyStrip_idem, pyLower_idem]

theorem data_mk (l : List Char) : (String.mk l).data = l := rfl

theorem normText_data (s : String) : (normText s).data = normTextL s.data := rfl

theorem containsSub_iff_isInfix {p t : List Char} : containsSub p t = true ↔ p <:+: t := by
  induction t with
  | nil =>
    constructor
    · intro h
      have : p = [] := by
        cases p with
        | nil => rfl
        | cons a l => simp [containsSub, List.isEmpty] at h
      simp [this]
    · intro h
      have : p = [] := List.eq_nil_of_infix_nil h
      simp [this, containsSub, List.isEmpty]
  | cons c s ih =>
    rw [List.infix_cons_iff, containsSub, Bool.or_eq_true, List.isPrefixOf_iff_prefix, ih]

theorem containsSub_of_infix {p t₁ t₂ : List Char} (h : t₁ <:+: t₂)
    (hc : containsSub p t₁ = true) : containsSub p t₂ = true :=
  containsSub_iff_isInfix.mpr ((containsSub_iff_isInfix.mp hc).trans h)

theorem rdropWhile_append {α : Type} [DecidableEq α] (p : α → Bool) (a b : List α) :
    List.rdropWhile p (a ++ b)
      = if List.rdropWhile p b = [] then List.rdropWhile p a else a ++ List.rdropWhile p b := by
  by_cases hb : List.rdropWhile p b = []
  · rw [if_pos hb]
    unfold List.rdropWhile at hb ⊢
    rw [List.reverse_append, List.dropWhile_append]
    have hnil : List.dropWhile p b.reverse = [] := by
      have := congrArg List.reverse hb
      simpa using this
    rw [hnil]
    simp
  · rw [if_neg hb]
    unfold List.rdropWhile at hb ⊢
    rw [List.reverse_append, List.dropWhile_append]
    have hne : (List.dropWhile p b.reverse).isEmpty = false := by
      rcases h : List.dropWhile p b.reverse with _ | ⟨x, t⟩
      · exact absurd (by rw [h]; rfl) hb
      · rfl
    rw [if_neg (by rw [hne]; exact Bool.false_ne_true)]
    rw [List.reverse_append, List.reverse_reverse]

/-! ### Normalization lemmas for the intent predicates -/

theorem isGreeting_mk_norm (q : String) : isGreeting ⟨normTextL q.data⟩ = isGreeting q := by
  unfold isGreeting
  rw [data_mk, normTextL_idem]

theorem isAnalysisOnly_mk_norm (q : String) :
    isAnalysisOnly ⟨normTextL q.data⟩ = isAnalysisOnly q := by
  unfold isAnalysisOnly
  rw [data_mk, normTextL_idem]

theorem isAdvice_mk_norm (q : String) : isAdvice ⟨normTextL q.data⟩ = isAdvice q := by
  unfold isAdvice
  rw [data_mk, normTextL_idem]

theorem isSymptomQuestion_mk_norm (q : String) :
    isSymptomQuestion ⟨normTextL q.data⟩ = isSymptomQuestion q := by
  unfold isSymptomQuestion
  rw [data_mk, normTextL_idem]

theorem isSmalltalkOrMeta_mk_norm (q : String) :
    isSmalltalkOrMeta ⟨normTextL q.data⟩ = isSmalltalkOrMeta q := by
  unfold isSmalltalkOrMeta
  rw [data_mk, normTextL_idem]

/-- `_rule_intent` in terms of the predicates applied to the raw question
(each predicate normalizes internally, and normalization is idempotent). -/
theorem ruleIntent_eq (q : String) :
    ruleIntent q =
      if normText q = "" then "unknown"
      else if isGreeting q then "greet"
      else if isSymptomQuestion q then "symptom"
      else if isSmalltalkOrMeta q then "meta"
      else if isAnalysisOnly q && !isAdvice q then "analysis"
      else if isAdvice q && !isAnalysisOnly q then "advice"
      else if isAnalysisOnly q && isAdvice q then "ambiguous"
      else "unknown" := by
  unfold ruleIntent normText
  simp only [isGreeting_mk_norm, isSymptomQuestion_mk_norm, isSmalltalkOrMeta_mk_norm,
    isAnalysisOnly_mk_norm, isAdvice_mk_norm]

/-! ### Claim theorems -/

/-- C4: the rule-based intent classifier normalizes the question (trim,
lowercase), returns `unknown` on empty text, and otherwise tests in fixed
priority order: greeting, then symptom (shrimp token AND symptom keyword),
then meta, then the analysis/advice keyword sets with exactly-one/both/neither
resolution to analysis, advice, `ambiguous`, `unknown`. -/
theorem rule_intent_cascade (q : String) :
    (normText q = "" → ruleIntent q = "unknown") ∧
    (normText q ≠ "" → isGreeting q = true → ruleIntent q = "greet") ∧
    (isSymptomQuestion q
      = ((containsStr (normText q) "tôm" || containsStr (normText q) "tom")
          && symptomKeys.any fun k => containsStr (normText q) k)) ∧
    (normText q ≠ "" → isGreeting q = false → isSymptomQuestion q = true →
      ruleIntent q = "symptom") ∧
    (normText q ≠ "" → isGreeting q = false → isSymptomQuestion q = false →
      isSmalltalkOrMeta q = true → ruleIntent q = "meta") ∧
    (normText q ≠ "" → isGreeting q = false → isSymptomQuestion q = false →
      isSmalltalkOrMeta q = false →
      ruleIntent q =
        if isAnalysisOnly q && !isAdvice q then "analysis"
        else if isAdvice q && !isAnalysisOnly q then "advice"
        else if isAnalysisOnly q && isAdvice q then "ambiguous"
        else "unknown") := by
  refine ⟨?_, ?_, rfl, ?_, ?_, ?_⟩ <;> intro h1 <;>
    rw [ruleIntent_eq] <;> simp_all

/-- Witness for C4 at the question "tôm bỏ ăn" (symptom branch). -/
theorem rule_intent_cascade_witness :
    (normText "tôm bỏ ăn" ≠ "" ∧ isGreeting "tôm bỏ ăn" = false ∧
      isSymptomQuestion "tôm bỏ ăn" = true) ∧
    ruleIntent "tôm bỏ ăn" = "symptom" :=
  ⟨⟨by decide, by decide, by decide⟩,
   (rule_intent_cascade "tôm bỏ ăn").2.2.2.1 (by decide) (by decide) (by decide)⟩

/-- C9: greeting detection accepts the exact question "hi" and any question
beginning with "hi " (for every continuation), while "history" is not
classified as a greeting. -/
theorem greeting_boundary :
    ruleIntent "hi" = "greet" ∧
    (∀ s : String, ruleIntent ("hi " ++ s) = "greet") ∧
    ruleIntent "history" ≠ "greet" := by
  refine ⟨by decide, ?_, by decide⟩
  intro s
  have hsplit : ("hi " ++ s).data = 'h' :: 'i' :: ' ' :: s.data := by
    rw [String.data_append]
    rfl
  have hstrip : pyStrip ('h' :: 'i' :: ' ' :: s.data)
      = if List.rdropWhile isPySpace s.data = [] then ['h', 'i']
        else ['h', 'i', ' '] ++ List.rdropWhile isPySpace s.data := by
    rw [pyStrip_eq_rdrop]
    have hd : List.dropWhile isPySpace ('h' :: 'i' :: ' ' :: s.data)
        = 'h' :: 'i' :: ' ' :: s.data := by
      rw [List.dropWhile_cons, if_neg (by decide)]
    rw [hd, show ('h' :: 'i' :: ' ' :: s.data) = ['h', 'i', ' '] ++ s.data from rfl,
      rdropWhile_append]
    split_ifs <;> rfl
  rcases h0 : List.rdropWhile isPySpace s.data with _ | ⟨x, xs⟩
  · have hn : normTextL ("hi " ++ s).data = ['h', 'i'] := by
      rw [hsplit]
      unfold normTextL
      rw [hstrip, if_pos h0]
      rfl
    have hgreet : isGreeting ("hi " ++ s) = true := by
      unfold isGreeting
      rw [hn]
      decide
    have hne : normText ("hi " ++ s) ≠ "" := by
      unfold normText
      rw [hn]
      decide
    rw [ruleIntent_eq, if_neg hne, if_pos hgreet]
  · have hn : normTextL ("hi " ++ s).data
        = 'h' :: 'i' :: ' ' :: pyLower (x :: xs) := by
      rw [hsplit]
      unfold normTextL
      rw [hstrip, if_neg (by rw [h0]; simp), h0]
      unfold pyLower
      rw [List.map_append]
      rfl
    have hgreet : isGreeting ("hi " ++ s) = true := by
      unfold isGreeting
      rw [hn]
      refine List.any_eq_true.mpr ⟨"hi", by decide, ?_⟩
      have hp : ("hi".data ++ [' ']).isPrefixOf
          ('h' :: 'i' :: ' ' :: pyLower (x :: xs)) = true := by
        rw [List.isPrefixOf_iff_prefix]
        exact ⟨pyLower (x :: xs), rfl⟩
      rw [hp, Bool.or_true]
    have hne : normText ("hi " ++ s) ≠ "" := by
      unfold normText
      rw [hn]
      intro hcon
      have := congrArg String.data hcon
      simp at this
    rw [ruleIntent_eq, if_neg hne, if_pos hgreet]

/-- C5: the derived priority tag is "P1" whenever the risk classification is
high (label 1) regardless of the environment classification, also "P1" when
the environment classification is "not suitable" (label 0), and "P2" in all
other cases. -/
theorem priority_tag_spec (y1 : ℤ) (y2 : ℝ) (y3 y4 : ℤ) :
    riskToPriority (predictResult y1 y2 y3 y4).task1_text (predictResult y1 y2 y3 y4).task3_text
      = if y1 = 1 ∨ y3 = 0 then "P1" else "P2" := by
  have h1 : (predictResult y1 y2 y3 y4).task1_text = riskMap y1 := rfl
  have h3 : (predictResult y1 y2 y3 y4).task3_text = envMap y3 := rfl
  rw [h1, h3]
  unfold riskMap envMap
  split_ifs <;> first | decide | (exfalso; omega)

/-- C6: every exception raised while producing a prediction is wrapped into
the single domain error `CustomException`, tagged with the failing stage
(artifact load, preprocessing transform, or model predict), and propagated to
the caller; successful runs return the result dict, so no failure is silently
swallowed. -/
theorem predict_error_wrapping {γ V A ε : Type}
    (pre : γ → Except ε V) (m1 : V → Except ε ℤ) (m2 : V → Except ε ℝ)
    (m3 m4 : V → Except ε ℤ) (df : γ) (l0 l1 l2 l3 l4 : Except ε A) :
    (∀ exc, pipelineInit l0 l1 l2 l3 l4 = .error exc → exc.stage = .artifactLoad) ∧
    (∀ e, l0 = .error e → pipelineInit l0 l1 l2 l3 l4 = .error ⟨e, .artifactLoad⟩) ∧
    (∀ e, pre df = .error e →
      pipelinePredict pre m1 m2 m3 m4 df = .error ⟨e, .preprocessTransform⟩) ∧
    (∀ x e, pre df = .ok x → m1 x = .error e →
      pipelinePredict pre m1 m2 m3 m4 df = .error ⟨e, .modelPredict⟩) ∧
    (∀ x y1 e, pre df = .ok x → m1 x = .ok y1 → m2 x = .error e →
      pipelinePredict pre m1 m2 m3 m4 df = .error ⟨e, .modelPredict⟩) ∧
    (∀ x y1 y2 e, pre df = .ok x → m1 x = .ok y1 → m2 x = .ok y2 → m3 x = .error e →
      pipelinePredict pre m1 m2 m3 m4 df = .error ⟨e, .modelPredict⟩) ∧
    (∀ x y1 y2 y3 e, pre df = .ok x → m1 x = .ok y1 → m2 x = .ok y2 → m3 x = .ok y3 →
      m4 x = .error e →
      pipelinePredict pre m1 m2 m3 m4 df = .error ⟨e, .modelPredict⟩) ∧
    (∀ x y1 y2 y3 y4, pre df = .ok x → m1 x = .ok y1 → m2 x = .ok y2 → m3 x = .ok y3 →
      m4 x = .ok y4 →
      pipelinePredict pre m1 m2 m3 m4 df = .ok (predictResult y1 y2 y3 y4)) := by
  refine ⟨?_, ?_, ?_, ?_, ?_, ?_, ?_, ?_⟩
  · intro exc h
    rcases l0 with e0 | v0 <;> rcases l1 with e1 | v1 <;> rcases l2 with e2 | v2 <;>
      rcases l3 with e3 | v3 <;> rcases l4 with e4 | v4 <;>
      simp only [pipelineInit, Except.error.injEq] at h <;>
      first
        | (subst h; rfl)
        | exact Except.noConfusion h
  · intro e h
    rw [h]
    rfl
  · intro e h
    simp only [pipelinePredict, h]
  · intro x e h1 h2
    simp only [pipelinePredict, h1, h2]
  · intro x y1 e h1 h2 h3
    simp only [pipelinePredict, h1, h2, h3]
  · intro x y1 y2 e h1 h2 h3 h4
    simp only [pipelinePredict, h1, h2, h3, h4]
  · intro x y1 y2 y3 e h1 h2 h3 h4 h5
    simp only [pipelinePredict, h1, h2, h3, h4, h5]
  · intro x y1 y2 y3 y4 h1 h2 h3 h4 h5
    simp only [pipelinePredict, h1, h2, h3, h4, h5]

/-- Witness for C6: a transform failure is wrapped with the transform stage. -/
theorem predict_error_wrapping_witness :
    (fun _ : Unit => (Except.error 4 : Except ℕ Unit)) () = .error 4 ∧
    pipelinePredict (fun _ : Unit => (Except.error 4 : Except ℕ Unit))
      (fun _ => .ok 0) (fun _ => .ok 0) (fun _ => .ok 0) (fun _ => .ok 0) ()
      = .error ⟨4, .preprocessTransform⟩ :=
  ⟨rfl,
   (predict_error_wrapping (fun _ : Unit => (Except.error 4 : Except ℕ Unit))
      (fun _ => .ok 0) (fun _ => .ok 0) (fun _ => .ok 0) (fun _ => .ok 0) ()
      (Except.ok ()) (.ok ()) (.ok ()) (.ok ()) (.ok ())).2.2.1 4 rfl⟩

/-- C2, counterexample: when the fallback intent-classification call raises,
the exception is NOT recovered locally — `answer` propagates it (here the
question "abc" has rule intent `unknown`, so the fallback runs). -/
theorem intent_fallback_cex :
    ruleIntent "abc" = "unknown" ∧
    answer ctxFailLLM "abc" [] [] = (.error 7, 1) := by
  constructor
  · decide
  · rfl

/-- C2 (amended): unparseable fallback output and out-of-set labels are
recovered locally to the `knowledge` intent, but an exception raised by the
fallback language-model call itself is not recovered — it propagates out of
`answer`. -/
theorem intent_fallback_behavior {ε : Type} (ctx : AgentCtx ε) (q : String) (hd hp : Bool) :
    (∀ e, ctx.llm (intentMsgs q hd hp) = .error e →
      llmIntentModel ctx q hd hp = .error e) ∧
    (∀ c, ctx.llm (intentMsgs q hd hp) = .ok c →
      ctx.jsonIntent (pyStripS (c.getD "")) = Option.none →
      llmIntentModel ctx q hd hp = .ok "knowledge") ∧
    (∀ c s, ctx.llm (intentMsgs q hd hp) = .ok c →
      ctx.jsonIntent (pyStripS (c.getD "")) = Option.some s →
      allowedIntents.contains (normText s) = false →
      llmIntentModel ctx q hd hp = .ok "knowledge") ∧
    (∀ w p e, (ruleIntent q == "unknown" || ruleIntent q == "ambiguous") = true →
      ctx.llm (intentMsgs q (hasAnyWaterData w) (!p.isEmpty)) = .error e →
      answer ctx q w p = (.error e, 1)) := by
  refine ⟨?_, ?_, ?_, ?_⟩
  · intro e h
    unfold llmIntentModel
    rw [h]
  · intro c h1 h2
    unfold llmIntentModel
    rw [h1]
    simp only [h2]
  · intro c s h1 h2 h3
    unfold llmIntentModel
    rw [h1]
    simp only [h2, h3]
    rfl
  · intro w p e hrule hllm
    have h1 : resolvedIntentE ctx q (hasAnyWaterData w) (!p.isEmpty) = .error e := by
      unfold resolvedIntentE llmIntentModel
      rw [if_pos hrule, hllm]
    have h2 : intentCalls q = 1 := by
      unfold intentCalls
      rw [if_pos hrule]
    unfold answer
    rw [h1, h2]

/-- Witness for C2 (amended): an unparseable fallback reply defaults to
`knowledge`. -/
theorem intent_fallback_behavior_witness :
    ctxParseFail.llm (intentMsgs "abc" false false) = .ok (Option.some "oops") ∧
    ctxParseFail.jsonIntent (pyStripS ((Option.some "oops").getD "")) = Option.none ∧
    llmIntentModel ctxParseFail "abc" false false = .ok "knowledge" :=
  ⟨rfl, rfl,
   (intent_fallback_behavior ctxParseFail "abc" false false).2.1 (Option.some "oops") rfl rfl⟩

/-- C3, counterexample: for the question "phân tích giúp em" with no water
data, the rule classifier says `ambiguous` (the text matches both the
analysis and the advice keyword sets), so `answer` performs a language-model
intent-fallback call (call count 1); with a raising collaborator the
invocation returns the propagated error, not the fixed
submit-a-reading-first message. -/
theorem analysis_request_cex :
    ruleIntent "phân tích giúp em" = "ambiguous" ∧
    answer ctxFailLLM "phân tích giúp em" [] [] = (.error 7, 1) ∧
    (answer ctxFailLLM "phân tích giúp em" [] []).1 ≠ .ok analysisMissingMsg ∧
    (answer ctxFailLLM "phân tích giúp em" [] []).1 ≠ .ok adviceMissingMsg := by
  refine ⟨by decide, rfl, ?_, ?_⟩ <;> intro hcon <;> exact Except.noConfusion hcon

/-- C3 (amended): `answer("phân tích giúp em")` with no data first makes
exactly one language-model call — the intent fallback, because the rule
classifier finds the question ambiguous; when that fallback classifies it as
analysis (resp. advice), the fixed analysis (resp. advice)
submit-a-reading-first message is returned verbatim with no further
language-model call. -/
theorem analysis_request_missing_data {ε : Type} (ctx : AgentCtx ε) :
    ruleIntent "phân tích giúp em" = "ambiguous" ∧
    (llmIntentModel ctx "phân tích giúp em" false false = .ok "analysis" →
      answer ctx "phân tích giúp em" [] [] = (.ok analysisMissingMsg, 1)) ∧
    (llmIntentModel ctx "phân tích giúp em" false false = .ok "advice" →
      answer ctx "phân tích giúp em" [] [] = (.ok adviceMissingMsg, 1)) := by
  refine ⟨by decide, ?_, ?_⟩ <;> intro h
  · have hres : resolvedIntentE ctx "phân tích giúp em" (hasAnyWaterData [])
        (!(([] : List (String × PyVal))).isEmpty) = .ok "analysis" := by
      unfold resolvedIntentE
      rw [if_pos (by decide)]
      exact h
    unfold answer
    rw [hres]
    exact rfl
  · have hres : resolvedIntentE ctx "phân tích giúp em" (hasAnyWaterData [])
        (!(([] : List (String × PyVal))).isEmpty) = .ok "advice" := by
      unfold resolvedIntentE
      rw [if_pos (by decide)]
      exact h
    unfold answer
    rw [hres]
    exact rfl

/-- Witness for C3 (amended): a fallback that classifies the question as
analysis leads to the fixed analysis message. -/
theorem analysis_request_missing_data_witness :
    llmIntentModel ctxIntentAnalysis "phân tích giúp em" false false = .ok "analysis" ∧
    answer ctxIntentAnalysis "phân tích giúp em" [] [] = (.ok analysisMissingMsg, 1) :=
  ⟨rfl, (analysis_request_missing_data ctxIntentAnalysis).2.1 rfl⟩

theorem hasAnyWaterData_eq_not_noWaterValues (w : List (String × PyVal)) :
    hasAnyWaterData w = !noWaterValues w := by
  unfold hasAnyWaterData noWaterValues
  induction chemKeys with
  | nil => rfl
  | cons k l ih =>
    rw [List.any_cons, List.all_cons, ih, Bool.not_and]
    cases hk : w.lookup k with
    | none => simp
    | some v => simp

/-- C10: a water-sample mapping whose chemistry fields are each absent or
bound to None, `""`, or `"None"` counts as having no data, and with resolved
intent analysis or advice `answer` returns the corresponding fixed
submit-a-reading-first message — even when a prediction dict is present. -/
theorem no_water_data_gate {ε : Type} (ctx : AgentCtx ε) (q : String)
    (w p : List (String × PyVal)) (hw : noWaterValues w = true) :
    hasAnyWaterData w = false ∧
    (resolvedIntentE ctx q false (!p.isEmpty) = .ok "analysis" →
      answer ctx q w p = (.ok analysisMissingMsg, intentCalls q)) ∧
    (resolvedIntentE ctx q false (!p.isEmpty) = .ok "advice" →
      answer ctx q w p = (.ok adviceMissingMsg, intentCalls q)) := by
  have hfalse : hasAnyWaterData w = false := by
    rw [hasAnyWaterData_eq_not_noWaterValues, hw]
    rfl
  refine ⟨hfalse, ?_, ?_⟩ <;> intro h <;>
    unfold answer <;> rw [hfalse, h] <;>
    unfold answerWith <;> rw [hfalse] <;> rfl

/-- Witness for C10: all-None-like chemistry values with a present prediction
still yield the fixed analysis message. -/
theorem no_water_data_gate_witness :
    noWaterValues waterNoneLike = true ∧
    resolvedIntentE ctxPlain "phân tích" false (!predPresent.isEmpty) = .ok "analysis" ∧
    answer ctxPlain "phân tích" waterNoneLike predPresent
      = (.ok analysisMissingMsg, intentCalls "phân tích") :=
  ⟨by decide, rfl, (no_water_data_gate ctxPlain "phân tích" waterNoneLike predPresent
      (by decide)).2.1 rfl⟩

theorem containsStr_adviceUser_placeholder (compact q : String) :
    containsStr (adviceUser compact "" q) "(không có)" = true := by
  unfold adviceUser containsStr
  rw [if_pos rfl]
  apply containsSub_iff_isInfix.mpr
  refine ⟨(compact ++ "\n\nTham khảo tài liệu (nếu có):\n").data,
    (adviceUserTail q).data, ?_⟩
  simp only [String.data_append, List.append_assoc]

/-- C7: in the advice branch, an absent retrieval collaborator, a raising
query, and an empty snippet all degrade to the empty snippet, which the
prompt renders as the explicit "(không có)" placeholder; the reply is still
composed by the language-model call, and no retrieval failure propagates. -/
theorem advice_rag_degrades {ε : Type} (ctx : AgentCtx ε) (q : String)
    (w p : List (String × PyVal))
    (hqa : ctx.qa = Option.none ∨
      ∃ f, ctx.qa = Option.some f ∧
        ((∃ e, f ragQuery = .error e) ∨
         (∃ r, f ragQuery = .ok r ∧ pyStripS (r.getD "") = ""))) :
    ragSnippetOf ctx.qa = "" ∧
    containsStr (adviceUser (renderCompact ctx.showR w p) "" q) "(không có)" = true ∧
    (resolvedIntentE ctx q (hasAnyWaterData w) (!p.isEmpty) = .ok "advice" →
      hasAnyWaterData w = true → p.isEmpty = false →
      answer ctx q w p
        = (llmReply ctx.llm (adviceMsgs (renderCompact ctx.showR w p) "" q),
           intentCalls q + 1)) := by
  have hrag : ragSnippetOf ctx.qa = "" := by
    rcases hqa with hnone | ⟨f, hf, herr | ⟨r, hr, hempty⟩⟩
    · rw [hnone]; rfl
    · obtain ⟨e, he⟩ := herr
      simp only [ragSnippetOf, hf, he]
    · simp only [ragSnippetOf, hf, hr, hempty]
  refine ⟨hrag, containsStr_adviceUser_placeholder _ _, ?_⟩
  intro hres hd hp
  unfold answer
  rw [hres]
  unfold answerWith
  rw [hd, hp, hrag]
  rfl

/-- Witness for C7: a raising retrieval chain still yields the composed
advice reply with the placeholder snippet. -/
theorem advice_rag_degrades_witness :
    ragSnippetOf ctxQaFail.qa = "" ∧
    answer ctxQaFail "tư vấn" waterSome predPresent
      = (llmReply ctxQaFail.llm
          (adviceMsgs (renderCompact ctxQaFail.showR waterSome predPresent) "" "tư vấn"),
         intentCalls "tư vấn" + 1) :=
  have h := advice_rag_degrades ctxQaFail "tư vấn" waterSome predPresent
    (Or.inr ⟨_, rfl, Or.inl ⟨9, rfl⟩⟩)
  ⟨h.1, h.2.2 rfl rfl rfl⟩

theorem round3R_nine : round3R (9.0004 : ℝ) = 9 := by
  unfold round3R
  have h1 : (1000 : ℝ) * 9.0004 = 9000.4 := by norm_num
  have h2 : round (9000.4 : ℝ) = 9000 := by
    rw [round_eq]
    have : ⌊(9000.4 : ℝ) + 1 / 2⌋ = 9000 := by
      rw [Int.floor_eq_iff]
      norm_num
    exact this
  rw [h1, h2]
  norm_num

theorem exp_nine_ge : (512 : ℝ) ≤ Real.exp 9 := by
  have h1 : (2 : ℝ) ≤ Real.exp 1 := by
    have := Real.add_one_le_exp (1 : ℝ)
    linarith
  have h2 : Real.exp 9 = Real.exp 1 ^ 9 := by
    rw [← Real.exp_nat_mul]
    norm_num
  have h3 : (2 : ℝ) ^ 9 ≤ Real.exp 1 ^ 9 :=
    pow_le_pow_left₀ (by norm_num) h1 9
  rw [h2]
  calc (512 : ℝ) = 2 ^ 9 := by norm_num
    _ ≤ Real.exp 1 ^ 9 := h3

theorem exp_gap : Real.exp 9 + 0.2 ≤ Real.exp (9.0004 : ℝ) := by
  have hsplit : Real.exp (9.0004 : ℝ) = Real.exp 9 * Real.exp 0.0004 := by
    rw [← Real.exp_add]
    norm_num
  have h1 : (0.0004 : ℝ) + 1 ≤ Real.exp 0.0004 := Real.add_one_le_exp _
  have h2 : (512 : ℝ) ≤ Real.exp 9 := exp_nine_ge
  have h3 : (0 : ℝ) < Real.exp 9 := Real.exp_pos _
  nlinarith [hsplit, h1, h2, h3]

theorem round2R_gap_ne {a b : ℝ} (h : a + 0.2 ≤ b) : round2R a ≠ round2R b := by
  have hfloor : round (100 * a) + 20 ≤ round (100 * b) := by
    rw [round_eq, round_eq]
    have h20 : (100 * a + 1 / 2) + (20 : ℤ) ≤ 100 * b + 1 / 2 := by
      push_cast
      linarith
    calc ⌊100 * a + 1 / 2⌋ + (20 : ℤ) = ⌊(100 * a + 1 / 2) + (20 : ℤ)⌋ :=
          (Int.floor_add_int _ _).symm
      _ ≤ ⌊100 * b + 1 / 2⌋ := Int.floor_mono h20
  intro hcon
  unfold round2R at hcon
  have : (round (100 * a) : ℝ) = (round (100 * b) : ℝ) := by
    field_simp at hcon
    exact_mod_cast hcon
  have heq : round (100 * a) = round (100 * b) := by exact_mod_cast this
  omega

/-- C1, counterexample: for raw log-scale model output 9.0004 the reported
log is round(9.0004, 3) = 9, and the reported concentration estimate
round(exp 9.0004, 2) differs from round(exp 9, 2): the code exponentiates the
raw output, not the rounded log it reports. -/
theorem vibrio_est_cex :
    (predictResult 0 (9.0004 : ℝ) 0 0).task2_vibrio_log = 9 ∧
    (predictResult 0 (9.0004 : ℝ) 0 0).task2_vibrio_est
      ≠ round2R (Real.exp ((predictResult 0 (9.0004 : ℝ) 0 0).task2_vibrio_log)) := by
  have hlog : (predictResult 0 (9.0004 : ℝ) 0 0).task2_vibrio_log = 9 := round3R_nine
  refine ⟨hlog, ?_⟩
  rw [hlog]
  show round2R (Real.exp 9.0004) ≠ round2R (Real.exp 9)
  exact (round2R_gap_ne exp_gap).symm

/-- C1 (amended): the concentration estimate equals round(exp(y2), 2) for the
raw log-scale output y2, while the reported log is round(y2, 3); the claimed
identity `est = round(exp(log), 2)` holds exactly when rounding to three
decimals leaves the raw output unchanged. -/
theorem vibrio_est_amended (y1 : ℤ) (y2 : ℝ) (y3 y4 : ℤ) :
    (predictResult y1 y2 y3 y4).task2_vibrio_est = round2R (Real.exp y2) ∧
    (round3R y2 = y2 →
      (predictResult y1 y2 y3 y4).task2_vibrio_est
        = round2R (Real.exp ((predictResult y1 y2 y3 y4).task2_vibrio_log))) := by
  refine ⟨rfl, ?_⟩
  intro h
  show round2R (Real.exp y2) = round2R (Real.exp (round3R y2))
  rw [h]

/-- Witness for C1 (amended) at the raw output 2 (unchanged by rounding). -/
theorem vibrio_est_amended_witness :
    round3R (2 : ℝ) = 2 ∧
    (predictResult 0 (2 : ℝ) 0 0).task2_vibrio_est
      = round2R (Real.exp ((predictResult 0 (2 : ℝ) 0 0).task2_vibrio_log)) :=
  have h : round3R (2 : ℝ) = 2 := by
    unfold round3R
    have h1 : (1000 : ℝ) * 2 = ((2000 : ℤ) : ℝ) := by norm_num
    rw [h1, round_intCast]
    norm_num
  ⟨h, (vibrio_est_amended 0 2 0 0).2 h⟩

/-! ### Localization idempotence (C8): scanner structure lemmas -/

theorem lastOpt_nil (prev : Option Char) : lastOpt prev [] = prev := rfl

theorem lastOpt_cons (prev : Option Char) (c : Char) (b : List Char) :
    lastOpt prev (c :: b) = lastOpt (Option.some c) b := by
  cases b with
  | nil => rfl
  | cons d b' =>
    unfold lastOpt
    rw [List.getLast?_cons_cons]
    cases h : (d :: b').getLast? with
    | none => exact absurd (List.getLast?_eq_none_iff.mp h) (by simp)
    | some g => rfl

theorem hasWordMatch_eq_matchStartsIn (pat : List Char) (prev : Option Char) (l : List Char) :
    hasWordMatch pat prev l = matchStartsIn pat prev l [] := by
  induction l generalizing prev with
  | nil => rfl
  | cons c s ih =>
    unfold hasWordMatch matchStartsIn
    rw [List.append_nil, ih]

theorem matchStartsIn_append (pat : List Char) (x y z : List Char) (prev : Option Char) :
    matchStartsIn pat prev (x ++ y) z
      = (matchStartsIn pat prev x (y ++ z) || matchStartsIn pat (lastOpt prev x) y z) := by
  induction x generalizing prev with
  | nil => rfl
  | cons c x' ih =>
    show (wMatchAt pat prev (c :: ((x' ++ y) ++ z)) || matchStartsIn pat (some c) (x' ++ y) z)
      = ((wMatchAt pat prev (c :: (x' ++ (y ++ z))) || matchStartsIn pat (some c) x' (y ++ z))
          || matchStartsIn pat (lastOpt prev (c :: x')) y z)
    rw [List.append_assoc, ih, lastOpt_cons, Bool.or_assoc]

theorem hasWordMatch_append (pat : List Char) (x y : List Char) (prev : Option Char) :
    hasWordMatch pat prev (x ++ y)
      = (matchStartsIn pat prev x y || hasWordMatch pat (lastOpt prev x) y) := by
  rw [hasWordMatch_eq_matchStartsIn, matchStartsIn_append, List.append_nil,
    hasWordMatch_eq_matchStartsIn]

theorem replaceAllF_id {pat rep : List Char} (h : containsSub pat l = false) (f : Nat) :
    replaceAllF pat rep f l = l := by
  induction l generalizing f with
  | nil => cases f <;> rfl
  | cons c s ih =>
    cases f with
    | zero => rfl
    | succ f' =>
      unfold containsSub at h
      rw [Bool.or_eq_false_iff] at h
      unfold replaceAllF
      rw [if_neg (by simp [h.1]), ih h.2]

theorem subWordAuxF_id {pat rep : List Char} {prev : Option Char}
    (h : hasWordMatch pat prev l = false) (f : Nat) :
    subWordAuxF pat rep f prev l = l := by
  induction l generalizing f prev with
  | nil => cases f <;> rfl
  | cons c s ih =>
    cases f with
    | zero => rfl
    | succ f' =>
      unfold hasWordMatch at h
      rw [Bool.or_eq_false_iff] at h
      unfold subWordAuxF
      rw [if_neg (by simp [h.1]), ih h.2]

theorem replaceAll_id {pat rep l : List Char} (h : containsSub pat l = false) :
    replaceAll pat rep l = l := replaceAllF_id h _

theorem subWord_id_of_no_match {pat rep l : List Char}
    (h : hasWordMatch pat Option.none l = false) : subWord pat rep l = l :=
  subWordAuxF_id h _

theorem containsSub_nil_of_ne {pat : List Char} (hpat : pat ≠ []) :
    containsSub pat [] = false := by
  cases pat with
  | nil => exact absurd rfl hpat
  | cons a l => rfl

theorem lastOpt_of_ne_nil (prev : Option Char) {m : List Char} (hm : m ≠ []) :
    lastOpt prev m = m.getLast? := by
  cases h : m.getLast? with
  | none => exact absurd (List.getLast?_eq_none_iff.mp h) hm
  | some g =>
    unfold lastOpt
    rw [h]

theorem replaceAll_chunksF {pat rep : List Char} (hpat : pat ≠ []) :
    ∀ f l, l.length ≤ f → RChunks pat rep l (replaceAllF pat rep f l) := by
  intro f
  induction f with
  | zero =>
    intro l hl
    have hnil : l = [] := List.length_eq_zero.mp (Nat.le_zero.mp hl)
    subst hnil
    exact RChunks.last [] (containsSub_nil_of_ne hpat)
  | succ f' ih =>
    intro l hl
    cases l with
    | nil => exact RChunks.last [] (containsSub_nil_of_ne hpat)
    | cons c s =>
      have hne : pat.isEmpty = false := by
        cases pat with
        | nil => exact absurd rfl hpat
        | cons a l => rfl
      unfold replaceAllF
      by_cases hcond : pat.isPrefixOf (c :: s) = true
      · rw [if_pos (by rw [hne, hcond]; rfl)]
        obtain ⟨rest, hrest⟩ := List.isPrefixOf_iff_prefix.mp hcond
        have hdrop : (c :: s).drop pat.length = rest := by
          rw [← hrest]
          exact List.drop_left pat rest
        have hp1 : 1 ≤ pat.length := by
          cases pat with
          | nil => exact absurd rfl hpat
          | cons a l => simp
        have hlrest : rest.length ≤ f' := by
          have hlen := congrArg List.length hrest
          simp only [List.length_append, List.length_cons] at hlen hl
          omega
        have hstep := RChunks.step [] rest (replaceAllF pat rep f' rest)
          (containsSub_nil_of_ne hpat) (ih rest hlrest)
        rw [hdrop]
        simpa [hrest] using hstep
      · rw [if_neg (by rw [hne]; simp [hcond])]
        have hnp : pat.isPrefixOf (c :: s) = false := by
          rw [Bool.not_eq_true] at hcond
          exact hcond
        have hs : s.length ≤ f' := by
          simp only [List.length_cons] at hl
          omega
        have ihs := ih s hs
        generalize hout : replaceAllF pat rep f' s = out at ihs
        cases ihs with
        | last _ hb =>
          refine RChunks.last (c :: s) ?_
          unfold containsSub
          rw [hnp, hb]
          rfl
        | step b t u hb hr =>
          have hcb : containsSub pat (c :: b) = false := by
            unfold containsSub
            have h1 : pat.isPrefixOf (c :: b) = false := by
              by_contra hC
              rw [Bool.not_eq_false] at hC
              have hv : pat <+: c :: b := List.isPrefixOf_iff_prefix.mp hC
              have hv2 : pat <+: c :: (b ++ pat ++ t) :=
                hv.trans ⟨pat ++ t, by simp⟩
              rw [← List.isPrefixOf_iff_prefix] at hv2
              rw [hnp] at hv2
              cases hv2
            rw [h1, hb]
            rfl
          have hstep := RChunks.step (c :: b) t u hcb hr
          simpa using hstep

theorem replaceAll_chunks {pat rep : List Char} (hpat : pat ≠ []) (l : List Char) :
    RChunks pat rep l (replaceAll pat rep l) :=
  replaceAll_chunksF hpat l.length l le_rfl

theorem subWord_chunksF {pat rep : List Char} (hpat : pat ≠ []) :
    ∀ f prev l, l.length ≤ f → WChunks pat rep prev l (subWordAuxF pat rep f prev l) := by
  intro f
  induction f with
  | zero =>
    intro prev l hl
    have hnil : l = [] := List.length_eq_zero.mp (Nat.le_zero.mp hl)
    subst hnil
    exact WChunks.last prev [] rfl
  | succ f' ih =>
    intro prev l hl
    cases l with
    | nil => exact WChunks.last prev [] rfl
    | cons c s =>
      have hne : pat.isEmpty = false := by
        cases pat with
        | nil => exact absurd rfl hpat
        | cons a l => rfl
      have hp1 : 1 ≤ pat.length := by
        cases pat with
        | nil => exact absurd rfl hpat
        | cons a l => simp
      unfold subWordAuxF
      by_cases hcond : wMatchAt pat prev (c :: s) = true
      · rw [if_pos (by rw [hne, hcond]; rfl)]
        have hci : ciPref pat (c :: s) = true := by
          unfold wMatchAt at hcond
          rw [Bool.and_eq_true, Bool.and_eq_true] at hcond
          exact hcond.1.1
        have hlen2 : pat.length ≤ (c :: s).length := by
          unfold ciPref at hci
          have hv := (List.isPrefixOf_iff_prefix.mp hci).length_le
          simpa [pyLower] using hv
        have hmt : (c :: s).take pat.length ++ (c :: s).drop pat.length = c :: s :=
          List.take_append_drop _ _
        have hmlen : ((c :: s).take pat.length).length = pat.length := by
          rw [List.length_take]
          omega
        have hmne : (c :: s).take pat.length ≠ [] := by
          intro hC
          rw [hC] at hmlen
          simp at hmlen
          omega
        have htlen : ((c :: s).drop pat.length).length ≤ f' := by
          rw [List.length_drop]
          simp only [List.length_cons] at hl ⊢
          omega
        have hrec := ih ((c :: s).take pat.length).getLast? ((c :: s).drop pat.length) htlen
        have hstep := WChunks.step prev [] ((c :: s).take pat.length) ((c :: s).drop pat.length)
          (subWordAuxF pat rep f' ((c :: s).take pat.length).getLast? ((c :: s).drop pat.length))
          rfl
          (by rw [lastOpt_nil, hmt]; exact hcond)
          hmlen
          (by
            rw [lastOpt_nil, lastOpt_of_ne_nil prev hmne]
            exact hrec)
        simpa [hmt] using hstep
      · rw [if_neg (by rw [hne]; simp [hcond])]
        have hnm : wMatchAt pat prev (c :: s) = false := by
          rw [Bool.not_eq_true] at hcond
          exact hcond
        have hs : s.length ≤ f' := by
          simp only [List.length_cons] at hl
          omega
        have ihs := ih (some c) s hs
        generalize hout : subWordAuxF pat rep f' (some c) s = out at ihs
        cases ihs with
        | last _ _ hb =>
          refine WChunks.last prev (c :: s) ?_
          unfold hasWordMatch
          rw [hnm, hb]
          rfl
        | step _ b m t u hb hm hlen hr =>
          have hb' : matchStartsIn pat prev (c :: b) (m ++ t) = false := by
            unfold matchStartsIn
            have h1 : wMatchAt pat prev (c :: (b ++ (m ++ t))) = false := by
              have : c :: (b ++ (m ++ t)) = c :: (b ++ m ++ t) := by simp
              rw [this]
              exact hnm
            rw [h1, hb]
            rfl
          have hstep := WChunks.step prev (c :: b) m t u hb'
            (by rw [lastOpt_cons]; exact hm)
            hlen
            (by rw [lastOpt_cons]; exact hr)
          simpa using hstep

theorem subWord_chunks {pat rep : List Char} (hpat : pat ≠ []) (l : List Char) :
    WChunks pat rep Option.none l (subWord pat rep l) :=
  subWord_chunksF hpat l.length Option.none l le_rfl

theorem prefix_append_cases {α : Type} {q x y : List α} (h : q <+: x ++ y) :
    q <+: x ∨ ∃ w, q = x ++ w ∧ w <+: y := by
  induction x generalizing q with
  | nil => exact Or.inr ⟨q, rfl, h⟩
  | cons c x' ih =>
    cases q with
    | nil => exact Or.inl List.nil_prefix
    | cons a q' =>
      rw [List.cons_append, List.cons_prefix_cons] at h
      obtain ⟨rfl, h2⟩ := h
      rcases ih h2 with h3 | ⟨w, rfl, hw⟩
      · exact Or.inl (List.cons_prefix_cons.mpr ⟨rfl, h3⟩)
      · exact Or.inr ⟨w, by simp, hw⟩

theorem infix_append_cases {α : Type} {q x y : List α} (h : q <:+: x ++ y) :
    q <:+: x ∨ q <:+: y ∨
      ∃ v w, q = v ++ w ∧ v ≠ [] ∧ w ≠ [] ∧ v <:+ x ∧ w <+: y := by
  induction x generalizing q with
  | nil => exact Or.inr (Or.inl h)
  | cons c x' ih =>
    rw [List.cons_append, List.infix_cons_iff] at h
    rcases h with hpre | hinf
    · cases q with
      | nil => exact Or.inl List.nil_infix
      | cons a q' =>
        rw [List.cons_prefix_cons] at hpre
        obtain ⟨rfl, h2⟩ := hpre
        rcases prefix_append_cases h2 with h3 | ⟨w, rfl, hw⟩
        · exact Or.inl (List.cons_prefix_cons.mpr ⟨rfl, h3⟩).isInfix
        · by_cases hw0 : w = []
          · subst hw0
            refine Or.inl ?_
            rw [List.append_nil]
          · exact Or.inr (Or.inr ⟨a :: x', w, by simp, by simp, hw0,
              List.suffix_refl _, hw⟩)
    · rcases ih hinf with h3 | h3 | ⟨v, w, rfl, hv, hw, hvx, hwy⟩
      · exact Or.inl (List.infix_cons h3)
      · exact Or.inr (Or.inl h3)
      · exact Or.inr (Or.inr ⟨v, w, rfl, hv, hw, hvx.trans (List.suffix_cons c x'), hwy⟩)

theorem repSpanFree_no_pre_suf {q rep : List Char} (hchk : repSpanFree q rep = true) :
    ∀ v, v ≠ [] → v <+: rep → ¬ v <:+ q := by
  intro v hv hpre hsuf
  unfold repSpanFree at hchk
  rw [Bool.and_eq_true, Bool.and_eq_true, Bool.and_eq_true] at hchk
  have hall := List.all_eq_true.mp hchk.1.2
  have hmem : v.length ∈ List.range (rep.length + 1) :=
    List.mem_range.mpr (Nat.lt_succ_of_le hpre.length_le)
  have hk := hall _ hmem
  rw [Bool.or_eq_true] at hk
  rcases hk with hk | hk
  · have : v.length = 0 := of_decide_eq_true hk
    exact hv (List.length_eq_zero.mp this)
  · rw [← List.prefix_iff_eq_take.mp hpre] at hk
    rw [Bool.not_eq_eq_eq_not] at hk
    have := List.isSuffixOf_iff_suffix.mpr hsuf
    rw [this] at hk
    cases hk

theorem repSpanFree_no_suf_pre {q rep : List Char} (hchk : repSpanFree q rep = true) :
    ∀ v, v ≠ [] → v <:+ rep → ¬ v <+: q := by
  intro v hv hsuf hpre
  unfold repSpanFree at hchk
  rw [Bool.and_eq_true, Bool.and_eq_true, Bool.and_eq_true] at hchk
  have hall := List.all_eq_true.mp hchk.2
  have hmem : v.length ∈ List.range (rep.length + 1) :=
    List.mem_range.mpr (Nat.lt_succ_of_le hsuf.length_le)
  have hk := hall _ hmem
  rw [Bool.or_eq_true] at hk
  rcases hk with hk | hk
  · have : v.length = 0 := of_decide_eq_true hk
    exact hv (List.length_eq_zero.mp this)
  · rw [← List.suffix_iff_eq_drop.mp hsuf] at hk
    rw [Bool.not_eq_eq_eq_not] at hk
    have := List.isPrefixOf_iff_prefix.mpr hpre
    rw [this] at hk
    cases hk

/-- No occurrence of `q` in the output of a `replaceAll` scan, provided `q`
does not occur in the input (or `q` is the replaced pattern itself) and the
replacement text satisfies the span-freedom conditions. -/
theorem RChunks_no_occ {pat rep q t u : List Char}
    (hchk : repSpanFree q rep = true) (h : RChunks pat rep t u) :
    (containsSub q t = false ∨ q = pat) → containsSub q u = false := by
  have S1 : containsSub q rep = false := by
    unfold repSpanFree at hchk
    rw [Bool.and_eq_true, Bool.and_eq_true, Bool.and_eq_true] at hchk
    have := hchk.1.1.1
    rw [Bool.not_eq_eq_eq_not] at this
    exact this
  have S4 : containsSub rep q = false := by
    unfold repSpanFree at hchk
    rw [Bool.and_eq_true, Bool.and_eq_true, Bool.and_eq_true] at hchk
    have := hchk.1.1.2
    rw [Bool.not_eq_eq_eq_not] at this
    exact this
  induction h with
  | last b hb =>
    intro hqt
    rcases hqt with hqt | rfl
    · exact hqt
    · exact hb
  | step b t' u' hb hr ih =>
    intro hqt
    by_contra hC
    rw [Bool.not_eq_false] at hC
    have hinf : q <:+: b ++ rep ++ u' := containsSub_iff_isInfix.mp hC
    rw [List.append_assoc] at hinf
    rcases infix_append_cases hinf with h1 | h1 | ⟨v, w, rfl, hv, hw, hvb, hwrest⟩
    · have hqb : containsSub q b = true := containsSub_iff_isInfix.mpr h1
      rcases hqt with hqt | rfl
      · have hbt : b <:+: b ++ pat ++ t' := by
          rw [List.append_assoc]
          exact (List.prefix_append b _).isInfix
        have := containsSub_of_infix hbt hqb
        rw [hqt] at this
        cases this
      · rw [hb] at hqb
        cases hqb
    · rcases infix_append_cases h1 with h2 | h2 | ⟨v, w, rfl, hv, hw, hvr, hwu⟩
      · have := containsSub_iff_isInfix.mpr h2
        rw [S1] at this
        cases this
      · have hqt' : containsSub q t' = false ∨ q = pat := by
          rcases hqt with hqt | rfl
          · left
            by_contra hC2
            rw [Bool.not_eq_false] at hC2
            have htt : t' <:+: b ++ pat ++ t' :=
              (List.suffix_append (b ++ pat) t').isInfix
            have := containsSub_of_infix htt hC2
            rw [hqt] at this
            cases this
          · right
            rfl
        have := ih hqt'
        rw [containsSub_iff_isInfix.mpr h2] at this
        cases this
      · exact repSpanFree_no_suf_pre hchk v hv hvr ⟨w, rfl⟩
    · rcases prefix_append_cases hwrest with hwr | ⟨w', rfl, hw'⟩
      · exact repSpanFree_no_pre_suf hchk w hw hwr ⟨v, rfl⟩
      · have : rep <:+: v ++ (rep ++ w') := ⟨v, w', by simp⟩
        have h5 := containsSub_iff_isInfix.mpr this
        rw [S4] at h5
        cases h5

/-! ### Word-character and case-folding helpers -/

theorem isWordChar_charLower (c : Char) : isWordChar (charLower c) = isWordChar c := by
  unfold charLower
  cases h : lowerTable.lookup c with
  | none => rw [Option.getD_none]
  | some d =>
    rw [Option.getD_some]
    have hmem : (c, d) ∈ lowerTable := lookup_eq_some_mem h
    have hboth : ∀ p ∈ lowerTable, isWordChar p.1 = true ∧ isWordChar p.2 = true := by decide
    rw [(hboth _ hmem).1, (hboth _ hmem).2]

theorem length_pyLower (l : List Char) : (pyLower l).length = l.length := by
  unfold pyLower
  exact List.length_map l charLower

theorem allWord_mem {q : List Char} (hq : allWordChars q = true) {x : Char} (hx : x ∈ q) :
    isWordChar x = true :=
  List.all_eq_true.mp hq x hx

theorem wMatchAt_parts {pat : List Char} {prev : Option Char} {s : List Char}
    (h : wMatchAt pat prev s = true) :
    ciPref pat s = true ∧ bdryOpt prev = true ∧ bdryAfter (s.drop pat.length) = true := by
  unfold wMatchAt at h
  rw [Bool.and_eq_true, Bool.and_eq_true] at h
  exact ⟨h.1.1, h.1.2, h.2⟩

theorem ciPref_length_le {pat s : List Char} (h : ciPref pat s = true) :
    pat.length ≤ s.length := by
  unfold ciPref at h
  have := (List.isPrefixOf_iff_prefix.mp h).length_le
  rw [length_pyLower, length_pyLower] at this
  exact this

theorem ciPref_extract {pat m t : List Char} (h : ciPref pat (m ++ t) = true)
    (hlen : m.length = pat.length) : pyLower m = pyLower pat := by
  unfold ciPref at h
  have hpre := List.isPrefixOf_iff_prefix.mp h
  have htake := List.prefix_iff_eq_take.mp hpre
  rw [length_pyLower] at htake
  unfold pyLower at htake ⊢
  rw [List.map_append] at htake
  have : (List.map charLower m ++ List.map charLower t).take pat.length
      = List.map charLower m := by
    rw [← hlen]
    have := List.take_left (List.map charLower m) (List.map charLower t)
    rw [List.length_map] at this
    exact this
  rw [this] at htake
  exact htake.symm

theorem pyLower_eq_last {m pat : List Char} (h : pyLower m = pyLower pat)
    (hl : lastWordOk pat = true) : lastWordOk m = true := by
  unfold lastWordOk at hl ⊢
  have hmap := congrArg List.getLast? h
  unfold pyLower at hmap
  rw [List.getLast?_map, List.getLast?_map] at hmap
  cases hp : pat.getLast? with
  | none =>
    rw [hp] at hl
    cases hl
  | some g =>
    rw [hp] at hl hmap
    cases hm : m.getLast? with
    | none =>
      rw [hm] at hmap
      cases hmap
    | some g' =>
      rw [hm] at hmap
      simp only [Option.map_some'] at hmap
      have := Option.some.inj hmap
      have hw : isWordChar (charLower g') = isWordChar (charLower g) := by rw [this]
      rw [isWordChar_charLower, isWordChar_charLower] at hw
      show isWordChar g' = true
      rw [hw]
      exact hl

theorem pyLower_eq_head {m pat : List Char} (h : pyLower m = pyLower pat)
    (hl : headWordOk pat = true) : headWordOk m = true := by
  unfold headWordOk at hl ⊢
  have hmap := congrArg List.head? h
  unfold pyLower at hmap
  rw [List.head?_map, List.head?_map] at hmap
  cases hp : pat.head? with
  | none =>
    rw [hp] at hl
    cases hl
  | some g =>
    rw [hp] at hl hmap
    cases hm : m.head? with
    | none =>
      rw [hm] at hmap
      cases hmap
    | some g' =>
      rw [hm] at hmap
      simp only [Option.map_some'] at hmap
      have := Option.some.inj hmap
      have hw : isWordChar (charLower g') = isWordChar (charLower g) := by rw [this]
      rw [isWordChar_charLower, isWordChar_charLower] at hw
      show isWordChar g' = true
      rw [hw]
      exact hl

theorem headWordOk_ne_nil {l : List Char} (h : headWordOk l = true) : l ≠ [] := by
  intro hC
  rw [hC] at h
  cases h

theorem lastWordOk_ne_nil {l : List Char} (h : lastWordOk l = true) : l ≠ [] := by
  intro hC
  rw [hC] at h
  cases h

theorem bdryAfter_of_headWordOk {l : List Char} (h : headWordOk l = true) :
    bdryAfter l = false := by
  unfold headWordOk at h
  cases l with
  | nil => cases h
  | cons c s =>
    simp only [List.head?_cons] at h
    show (!isWordChar c) = false
    rw [h]
    rfl

theorem allWordChars_headWordOk {l : List Char} (hl : l ≠ [])
    (h : allWordChars l = true) : headWordOk l = true := by
  cases l with
  | nil => exact absurd rfl hl
  | cons c s =>
    unfold headWordOk
    simp only [List.head?_cons]
    exact allWord_mem h (by simp)

theorem allWordChars_lastWordOk {l : List Char} (hl : l ≠ [])
    (h : allWordChars l = true) : lastWordOk l = true := by
  unfold lastWordOk
  cases hg : l.getLast? with
  | none => exact absurd (List.getLast?_eq_none_iff.mp hg) hl
  | some g =>
    have : g ∈ l := List.mem_of_mem_getLast? (by rw [hg]; exact rfl)
    exact allWord_mem h this

theorem ciPref_word_mem {q s : List Char} (hq : allWordChars q = true)
    (h : ciPref q s = true) {x : Char} (hx : x ∈ s.take q.length) :
    isWordChar x = true := by
  unfold ciPref at h
  have hpre := List.isPrefixOf_iff_prefix.mp h
  have htake := List.prefix_iff_eq_take.mp hpre
  rw [length_pyLower] at htake
  have hmem : charLower x ∈ pyLower q := by
    rw [htake]
    unfold pyLower
    rw [← List.map_take]
    exact List.mem_map_of_mem charLower hx
  unfold pyLower at hmem
  obtain ⟨y, hy, hxy⟩ := List.mem_map.mp hmem
  have : isWordChar (charLower x) = isWordChar (charLower y) := by rw [hxy]
  rw [isWordChar_charLower, isWordChar_charLower] at this
  rw [this]
  exact allWord_mem hq hy

theorem ciPref_append_of {q s y : List Char} (h : ciPref q s = true) :
    ciPref q (s ++ y) = true := by
  unfold ciPref pyLower at h ⊢
  rw [List.map_append]
  rw [List.isPrefixOf_iff_prefix] at h ⊢
  exact h.trans (List.prefix_append _ _)

theorem ciPref_of_append {q s y : List Char} (hlen : q.length ≤ s.length)
    (h : ciPref q (s ++ y) = true) : ciPref q s = true := by
  unfold ciPref pyLower at h ⊢
  rw [List.map_append] at h
  rw [List.isPrefixOf_iff_prefix] at h ⊢
  rcases prefix_append_cases h with h1 | ⟨w, hw, hwy⟩
  · exact h1
  · have hlw := congrArg List.length hw
    simp only [List.length_append, List.length_map] at hlw
    have hw0 : w = [] := List.length_eq_zero.mp (by omega)
    subst hw0
    rw [List.append_nil] at hw
    rw [hw]

theorem ciPref_append_eq {q s : List Char} (hlen : q.length ≤ s.length) (y : List Char) :
    ciPref q (s ++ y) = ciPref q s := by
  cases hc : ciPref q s with
  | true => rw [ciPref_append_of hc]
  | false =>
    cases h2 : ciPref q (s ++ y) with
    | false => rfl
    | true =>
      rw [ciPref_of_append hlen h2] at hc
      cases hc

theorem bdryAfter_append_left {z : List Char} (y₁ y₂ : List Char) (hz : z ≠ []) :
    bdryAfter (z ++ y₁) = bdryAfter (z ++ y₂) := by
  cases z with
  | nil => exact absurd rfl hz
  | cons c t => rfl

theorem wMatchAt_cont_eq {q : List Char} (hq : allWordChars q = true)
    {s : List Char} (hs : s ≠ [])
    (hlastS : ∀ g, s.getLast? = some g → isWordChar g = false)
    {y₁ y₂ : List Char} (hb : bdryAfter y₁ = bdryAfter y₂) (prev : Option Char) :
    wMatchAt q prev (s ++ y₁) = wMatchAt q prev (s ++ y₂) := by
  by_cases hlen : q.length ≤ s.length
  · unfold wMatchAt
    rw [ciPref_append_eq hlen y₁, ciPref_append_eq hlen y₂]
    have hdrop : ∀ y : List Char, (s ++ y).drop q.length = s.drop q.length ++ y := by
      intro y
      rw [List.drop_append_eq_append_drop]
      have hz : q.length - s.length = 0 := by omega
      rw [hz, List.drop_zero]
    rw [hdrop y₁, hdrop y₂]
    cases hsd : s.drop q.length with
    | nil =>
      simp only [List.nil_append]
      rw [hb]
    | cons d z =>
      rw [bdryAfter_append_left y₁ y₂ (by simp)]
  · push_neg at hlen
    have hfalse : ∀ y : List Char, wMatchAt q prev (s ++ y) = false := by
      intro y
      cases hw : wMatchAt q prev (s ++ y) with
      | false => rfl
      | true =>
        exfalso
        have hci := (wMatchAt_parts hw).1
        obtain ⟨g, hg⟩ : ∃ g, s.getLast? = some g := by
          cases hgl : s.getLast? with
          | none => exact absurd (List.getLast?_eq_none_iff.mp hgl) hs
          | some g => exact ⟨g, rfl⟩
        have hgmem : g ∈ s := List.mem_of_mem_getLast? (by rw [hg]; exact rfl)
        have hmem2 : g ∈ (s ++ y).take q.length := by
          rw [List.take_append_eq_append_take]
          have hall : s.take q.length = s := List.take_of_length_le (by omega)
          rw [hall]
          exact List.mem_append_left _ hgmem
        have hcontr := ciPref_word_mem hq hci hmem2
        rw [hlastS g hg] at hcontr
        cases hcontr
    rw [hfalse y₁, hfalse y₂]

theorem matchStartsIn_cont_eq {q : List Char} (hq : allWordChars q = true) :
    ∀ (x : List Char) (prev : Option Char) {y₁ y₂ : List Char},
    (∀ g, x.getLast? = some g → isWordChar g = false) →
    bdryAfter y₁ = bdryAfter y₂ →
    matchStartsIn q prev x y₁ = matchStartsIn q prev x y₂ := by
  intro x
  induction x with
  | nil =>
    intro prev y₁ y₂ _ _
    rfl
  | cons c x' ih =>
    intro prev y₁ y₂ hlast hb
    show (wMatchAt q prev (c :: (x' ++ y₁)) || matchStartsIn q (some c) x' y₁)
      = (wMatchAt q prev (c :: (x' ++ y₂)) || matchStartsIn q (some c) x' y₂)
    have hlast' : ∀ g, x'.getLast? = some g → isWordChar g = false := by
      intro g hg
      refine hlast g ?_
      cases x' with
      | nil => cases hg
      | cons d x'' =>
        rw [List.getLast?_cons_cons]
        exact hg
    have h1 : wMatchAt q prev (c :: (x' ++ y₁)) = wMatchAt q prev (c :: (x' ++ y₂)) := by
      have := wMatchAt_cont_eq hq (s := c :: x') (by simp) (fun g hg => hlast g hg) hb prev
      simpa using this
    rw [h1, ih (some c) hlast' hb]

theorem matchStartsIn_allWord {q : List Char} :
    ∀ (x : List Char) {c : Char}, isWordChar c = true → allWordChars x = true →
    ∀ rest, matchStartsIn q (some c) x rest = false := by
  intro x
  induction x with
  | nil =>
    intro c _ _ rest
    rfl
  | cons d x' ih =>
    intro c hc hx rest
    have hx2 : isWordChar d = true ∧ allWordChars x' = true := by
      unfold allWordChars at hx
      rw [List.all_cons, Bool.and_eq_true] at hx
      exact hx
    show (wMatchAt q (some c) (d :: (x' ++ rest)) || matchStartsIn q (some d) x' rest) = false
    have hbd : bdryOpt (some c) = false := by
      show (!isWordChar c) = false
      rw [hc]
      rfl
    have h1 : wMatchAt q (some c) (d :: (x' ++ rest)) = false := by
      unfold wMatchAt
      rw [hbd]
      simp
    rw [h1, ih hx2.1 hx2.2 rest]
    rfl

theorem hasWordMatch_bdry_congr {q : List Char} {p₁ p₂ : Option Char}
    (hb : bdryOpt p₁ = bdryOpt p₂) (l : List Char) :
    hasWordMatch q p₁ l = hasWordMatch q p₂ l := by
  cases l with
  | nil => rfl
  | cons c s =>
    show (wMatchAt q p₁ (c :: s) || hasWordMatch q (some c) s)
      = (wMatchAt q p₂ (c :: s) || hasWordMatch q (some c) s)
    unfold wMatchAt
    rw [hb]

theorem WChunks_head {pat rep : List Char} {prev : Option Char} {t u : List Char}
    (h : WChunks pat rep prev t u) (hprev : bdryOpt prev = false) :
    u.head? = t.head? := by
  cases h with
  | last => rfl
  | step _ b m t' u' hb hm hlen hr =>
    cases b with
    | nil =>
      rw [lastOpt_nil] at hm
      have := (wMatchAt_parts hm).2.1
      rw [hprev] at this
      cases this
    | cons d b' => rfl

theorem WChunks_nil {pat rep : List Char} {prev : Option Char} {t u : List Char}
    (hpat : pat ≠ []) (h : WChunks pat rep prev t u) (ht : t = []) : u = [] := by
  cases h with
  | last => exact ht
  | step _ b m t' u' hb hm hlen hr =>
    rw [List.append_eq_nil] at ht
    have hm0 := ht.1
    rw [List.append_eq_nil] at hm0
    have : pat.length = 0 := by
      rw [← hlen, hm0.2]
      rfl
    exact absurd (List.length_eq_zero.mp this) hpat

theorem lastWord_eq_of_pyLower {a b : List Char} (h : pyLower a = pyLower b) :
    lastWordOk a = lastWordOk b := by
  unfold lastWordOk
  have hmap := congrArg List.getLast? h
  unfold pyLower at hmap
  rw [List.getLast?_map, List.getLast?_map] at hmap
  cases ha : a.getLast? with
  | none =>
    rw [ha] at hmap
    cases hb : b.getLast? with
    | none => rfl
    | some g =>
      rw [hb] at hmap
      simp only [Option.map_none', Option.map_some'] at hmap
      cases hmap
  | some g =>
    rw [ha] at hmap
    cases hb : b.getLast? with
    | none =>
      rw [hb] at hmap
      simp only [Option.map_none', Option.map_some'] at hmap
      cases hmap
    | some g' =>
      rw [hb] at hmap
      simp only [Option.map_some'] at hmap
      have he := Option.some.inj hmap
      have hw : isWordChar (charLower g) = isWordChar (charLower g') := by rw [he]
      rw [isWordChar_charLower, isWordChar_charLower] at hw
      show isWordChar g = isWordChar g'
      exact hw

theorem bdryAfter_congr_head {l₁ l₂ : List Char} (h : l₁.head? = l₂.head?) :
    bdryAfter l₁ = bdryAfter l₂ := by
  cases l₁ with
  | nil =>
    cases l₂ with
    | nil => rfl
    | cons c s => simp at h
  | cons c s =>
    cases l₂ with
    | nil => simp at h
    | cons d z =>
      simp only [List.head?_cons] at h
      have he := Option.some.inj h
      show (!isWordChar c) = (!isWordChar d)
      rw [he]

theorem bdryOpt_lastOpt_of_lastWordOk {m : List Char} (h : lastWordOk m = true)
    (p : Option Char) : bdryOpt (lastOpt p m) = false := by
  unfold lastWordOk at h
  unfold lastOpt
  cases hg : m.getLast? with
  | none =>
    rw [hg] at h
    cases h
  | some g =>
    rw [hg] at h
    have hgw : isWordChar g = true := h
    show (!isWordChar g) = false
    rw [hgw]
    rfl

theorem ciPref_split {q S R : List Char} (h : ciPref q (S ++ R) = true)
    (hlen : S.length ≤ q.length) :
    pyLower (q.take S.length) = pyLower S ∧ ciPref (q.drop S.length) R = true := by
  unfold ciPref at h
  rw [List.isPrefixOf_iff_prefix] at h
  unfold pyLower at h
  rw [List.map_append] at h
  have hsplit : List.map charLower q
      = List.map charLower (q.take S.length) ++ List.map charLower (q.drop S.length) := by
    rw [← List.map_append, List.take_append_drop]
  rw [hsplit] at h
  obtain ⟨r, hr⟩ := h
  rw [List.append_assoc] at hr
  have hlenA : (List.map charLower (q.take S.length)).length
      = (List.map charLower S).length := by
    rw [List.length_map, List.length_map, List.length_take]
    omega
  obtain ⟨hA, hBD⟩ := List.append_inj hr hlenA
  refine ⟨hA, ?_⟩
  unfold ciPref pyLower
  rw [List.isPrefixOf_iff_prefix]
  exact ⟨r, hBD⟩

theorem ciPref_imp_ciAgree {w rep X : List Char} (h : ciPref w (rep ++ X) = true) :
    ciAgree w rep = true := by
  unfold ciAgree
  rw [beq_iff_eq]
  by_cases hlen : w.length ≤ rep.length
  · have h2 : ciPref w rep = true := ciPref_of_append hlen h
    unfold ciPref at h2
    rw [List.isPrefixOf_iff_prefix] at h2
    have htake := List.prefix_iff_eq_take.mp h2
    rw [length_pyLower] at htake
    rw [List.take_of_length_le hlen, htake]
    unfold pyLower
    rw [← List.map_take]
  · push_neg at hlen
    obtain ⟨hA, _⟩ := ciPref_split h (le_of_lt hlen)
    rw [hA, List.take_of_length_le (le_of_lt hlen)]

theorem ciPref_head_false {a u : List Char} (ha : a ≠ []) (h : ciPref a u = true)
    (hu : bdryAfter u = true) : headWordOk a = false := by
  have hlen := ciPref_length_le h
  cases u with
  | nil =>
    exfalso
    cases a with
    | nil => exact ha rfl
    | cons c s => simp at hlen
  | cons d u' =>
    have hd : isWordChar d = false := by
      have hb : (!isWordChar d) = true := hu
      cases hw : isWordChar d
      · rfl
      · rw [hw] at hb; cases hb
    unfold ciPref at h
    rw [List.isPrefixOf_iff_prefix] at h
    obtain ⟨r, hr⟩ := h
    have hhead := congrArg List.head? hr
    cases a with
    | nil => exact absurd rfl ha
    | cons c s =>
      unfold pyLower at hhead
      simp only [List.map_cons, List.cons_append, List.head?_cons] at hhead
      have he := Option.some.inj hhead
      unfold headWordOk
      simp only [List.head?_cons]
      have hw : isWordChar (charLower c) = isWordChar (charLower d) := by rw [he]
      rw [isWordChar_charLower, isWordChar_charLower] at hw
      rw [hw, hd]

theorem wMatchAt_cont_eq_of_le {q s : List Char} (hlen : q.length ≤ s.length)
    {y₁ y₂ : List Char} (hb : bdryAfter y₁ = bdryAfter y₂) (prev : Option Char) :
    wMatchAt q prev (s ++ y₁) = wMatchAt q prev (s ++ y₂) := by
  unfold wMatchAt
  rw [ciPref_append_eq hlen y₁, ciPref_append_eq hlen y₂]
  have hdrop : ∀ y : List Char, (s ++ y).drop q.length = s.drop q.length ++ y := by
    intro y
    rw [List.drop_append_eq_append_drop]
    have hz : q.length - s.length = 0 := by omega
    rw [hz, List.drop_zero]
  rw [hdrop y₁, hdrop y₂]
  cases hsd : s.drop q.length with
  | nil =>
    simp only [List.nil_append]
    rw [hb]
  | cons d z =>
    rw [bdryAfter_append_left y₁ y₂ (by simp)]

theorem wMatchAt_no_cross {q rep : List Char} (hspan : wSpanOK q rep = true)
    {S u' : List Char} (hS : S ≠ [])
    (hlastS : ∀ g, S.getLast? = Option.some g → isWordChar g = false)
    (hlen : S.length < q.length)
    (hafterU : bdryAfter u' = true) (prev : Option Char) :
    wMatchAt q prev (S ++ (rep ++ u')) = false := by
  cases hw : wMatchAt q prev (S ++ (rep ++ u')) with
  | false => rfl
  | true =>
    exfalso
    have hci := (wMatchAt_parts hw).1
    obtain ⟨hA, hB⟩ := ciPref_split hci (le_of_lt hlen)
    have hSlast : lastWordOk S = false := by
      unfold lastWordOk
      cases hg : S.getLast? with
      | none => exact absurd (List.getLast?_eq_none_iff.mp hg) hS
      | some g =>
        show isWordChar g = false
        exact hlastS g hg
    have hvlast : lastWordOk (q.take S.length) = false := by
      rw [lastWord_eq_of_pyLower hA, hSlast]
    have hall := List.all_eq_true.mp hspan
    have hmem : S.length ∈ List.range q.length := List.mem_range.mpr hlen
    have hj0 := hall _ hmem
    have hj : (lastWordOk (q.take S.length) || !ciAgree (q.drop S.length) rep
        || headWordOk ((q.drop S.length).drop rep.length)) = true := hj0
    rw [Bool.or_eq_true, Bool.or_eq_true] at hj
    rcases hj with (hj | hj) | hj
    · rw [hvlast] at hj
      cases hj
    · have hag := ciPref_imp_ciAgree hB
      rw [hag] at hj
      cases hj
    · have hwne : (q.drop S.length).drop rep.length ≠ [] := headWordOk_ne_nil hj
      have hlen2 : rep.length < (q.drop S.length).length := by
        by_contra hcon
        push_neg at hcon
        exact hwne (List.drop_eq_nil_of_le hcon)
      obtain ⟨_, hB2⟩ := ciPref_split hB (le_of_lt hlen2)
      have hhf := ciPref_head_false hwne hB2 hafterU
      rw [hj] at hhf
      cases hhf

theorem matchStartsIn_no_cross {q rep m t' u' : List Char}
    (hspan : wSpanOK q rep = true)
    (hrh : headWordOk rep = true) (hmh : headWordOk m = true)
    (hafterU : bdryAfter u' = true) :
    ∀ (x : List Char) (prev : Option Char),
    (∀ g, x.getLast? = Option.some g → isWordChar g = false) →
    matchStartsIn q prev x (m ++ t') = false →
    matchStartsIn q prev x (rep ++ u') = false := by
  intro x
  induction x with
  | nil =>
    intro prev _ _
    rfl
  | cons c x' ih =>
    intro prev hlast h
    have hsplit : (wMatchAt q prev (c :: (x' ++ (m ++ t')))
        || matchStartsIn q (Option.some c) x' (m ++ t')) = false := h
    rw [Bool.or_eq_false_iff] at hsplit
    obtain ⟨h1, h2⟩ := hsplit
    have hlast' : ∀ g, x'.getLast? = Option.some g → isWordChar g = false := by
      intro g hg
      refine hlast g ?_
      cases x' with
      | nil => cases hg
      | cons d x'' =>
        rw [List.getLast?_cons_cons]
        exact hg
    show (wMatchAt q prev (c :: (x' ++ (rep ++ u')))
        || matchStartsIn q (Option.some c) x' (rep ++ u')) = false
    rw [Bool.or_eq_false_iff]
    refine ⟨?_, ih (Option.some c) hlast' h2⟩
    by_cases hql : q.length ≤ (c :: x').length
    · have hbb : bdryAfter (m ++ t') = bdryAfter (rep ++ u') := by
        cases m with
        | nil => cases hmh
        | cons a s =>
          cases rep with
          | nil => cases hrh
          | cons a2 s2 =>
            have ha : isWordChar a = true := hmh
            have ha2 : isWordChar a2 = true := hrh
            show (!isWordChar a) = (!isWordChar a2)
            rw [ha, ha2]
      have heq := wMatchAt_cont_eq_of_le (s := c :: x') hql hbb prev
      show wMatchAt q prev ((c :: x') ++ (rep ++ u')) = false
      rw [← heq]
      exact h1
    · push_neg at hql
      exact wMatchAt_no_cross hspan (by simp) hlast hql hafterU prev

theorem wMatchAt_rep_start {q rep u' : List Char} (hspan : wSpanOK q rep = true)
    (hq : q ≠ []) (hafterU : bdryAfter u' = true) (prev : Option Char) :
    wMatchAt q prev (rep ++ u') = false := by
  cases hw : wMatchAt q prev (rep ++ u') with
  | false => rfl
  | true =>
    exfalso
    have hci := (wMatchAt_parts hw).1
    have hall := List.all_eq_true.mp hspan
    have hmem : 0 ∈ List.range q.length := by
      refine List.mem_range.mpr ?_
      cases q with
      | nil => exact absurd rfl hq
      | cons a s => simp
    have hj0 := hall _ hmem
    have hj : (lastWordOk (q.take 0) || !ciAgree (q.drop 0) rep
        || headWordOk ((q.drop 0).drop rep.length)) = true := hj0
    rw [List.take_zero, List.drop_zero] at hj
    have hl0 : lastWordOk ([] : List Char) = false := rfl
    rw [hl0, Bool.false_or, Bool.or_eq_true] at hj
    rcases hj with hj | hj
    · have hag := ciPref_imp_ciAgree hci
      rw [hag] at hj
      cases hj
    · have hwne : q.drop rep.length ≠ [] := headWordOk_ne_nil hj
      have hlen2 : rep.length < q.length := by
        by_contra hcon
        push_neg at hcon
        exact hwne (List.drop_eq_nil_of_le hcon)
      obtain ⟨_, hB2⟩ := ciPref_split hci (le_of_lt hlen2)
      have hhf := ciPref_head_false hwne hB2 hafterU
      rw [hj] at hhf
      cases hhf

theorem matchStartsIn_in_rep {q rep : List Char} (hspan : wSpanOK q rep = true)
    (hq : q ≠ []) (hrw : allWordChars rep = true) {u' : List Char}
    (hafterU : bdryAfter u' = true) (prevB : Option Char) :
    matchStartsIn q prevB rep u' = false := by
  cases rep with
  | nil => rfl
  | cons a s =>
    show (wMatchAt q prevB (a :: (s ++ u')) || matchStartsIn q (Option.some a) s u') = false
    have hx2 : isWordChar a = true ∧ allWordChars s = true := by
      unfold allWordChars at hrw
      rw [List.all_cons, Bool.and_eq_true] at hrw
      exact hrw
    have h2 := matchStartsIn_allWord (q := q) s hx2.1 hx2.2 u'
    have h1 : wMatchAt q prevB (a :: (s ++ u')) = false :=
      wMatchAt_rep_start hspan hq hafterU prevB
    rw [h1, h2]
    rfl

/-- Through one `subWord` scan, absence of a boundary-delimited
case-insensitive match of `q` is preserved (and the scanned pattern itself
never matches the output), provided the replacement text is a word-character
run that satisfies the span conditions for `q`. -/
theorem WChunks_no_match {pat rep q : List Char}
    (hspan : wSpanOK q rep = true) (hq : q ≠ [])
    (hrw : allWordChars rep = true)
    (hrh : headWordOk rep = true) (hrl : lastWordOk rep = true)
    (hph : headWordOk pat = true) (hpl : lastWordOk pat = true)
    {prev : Option Char} {t u : List Char} (h : WChunks pat rep prev t u) :
    (hasWordMatch q prev t = false ∨ q = pat) → hasWordMatch q prev u = false := by
  induction h with
  | last p b hb =>
    intro hqt
    rcases hqt with hqt | rfl
    · exact hqt
    · exact hb
  | step p b m t' u' hb hm hlen hr ih =>
    intro hqt
    obtain ⟨hci, hbdry, hafter0⟩ := wMatchAt_parts hm
    have hmp : pyLower m = pyLower pat := ciPref_extract hci hlen
    have hmh : headWordOk m = true := pyLower_eq_head hmp hph
    have hml : lastWordOk m = true := pyLower_eq_last hmp hpl
    have hafterT : bdryAfter t' = true := by
      have hd : (m ++ t').drop pat.length = t' := by
        rw [← hlen]
        exact List.drop_left m t'
      rw [hd] at hafter0
      exact hafter0
    have hprevR : bdryOpt (lastOpt (lastOpt p b) m) = false :=
      bdryOpt_lastOpt_of_lastWordOk hml _
    have hheadU : u'.head? = t'.head? := WChunks_head hr hprevR
    have hafterU : bdryAfter u' = true := by
      rw [bdryAfter_congr_head hheadU]
      exact hafterT
    have hblast : ∀ g, b.getLast? = Option.some g → isWordChar g = false := by
      intro g hg
      have hlo : lastOpt p b = Option.some g := by
        unfold lastOpt
        rw [hg]
      rw [hlo] at hbdry
      have hbg : (!isWordChar g) = true := hbdry
      cases hwg : isWordChar g
      · rfl
      · rw [hwg] at hbg
        cases hbg
    have hAC : matchStartsIn q p b (m ++ t') = false ∧
        (hasWordMatch q (lastOpt (lastOpt p b) m) t' = false ∨ q = pat) := by
      rcases hqt with hqt | rfl
      · rw [List.append_assoc, hasWordMatch_append, Bool.or_eq_false_iff] at hqt
        obtain ⟨h1, h2⟩ := hqt
        rw [hasWordMatch_append, Bool.or_eq_false_iff] at h2
        exact ⟨h1, Or.inl h2.2⟩
      · exact ⟨hb, Or.inr rfl⟩
    obtain ⟨hA, hCih⟩ := hAC
    rw [List.append_assoc, hasWordMatch_append, Bool.or_eq_false_iff]
    refine ⟨matchStartsIn_no_cross hspan hrh hmh hafterU b p hblast hA, ?_⟩
    rw [hasWordMatch_append, Bool.or_eq_false_iff]
    refine ⟨matchStartsIn_in_rep hspan hq hrw hafterU _, ?_⟩
    have hC := ih hCih
    have hbo : bdryOpt (lastOpt (lastOpt p b) rep) = bdryOpt (lastOpt (lastOpt p b) m) := by
      rw [bdryOpt_lastOpt_of_lastWordOk hrl, bdryOpt_lastOpt_of_lastWordOk hml]
    rw [hasWordMatch_bdry_congr hbo u']
    exact hC

/-- Through one `subWord` scan, absence of a case-sensitive substring
occurrence of an all-word-character text `q` is preserved, provided `q` does
not occur in the replacement text. -/
theorem WChunks_no_occ {pat rep q : List Char}
    (hqw : allWordChars q = true)
    (hsub : containsSub q rep = false)
    (hpl : lastWordOk pat = true)
    {prev : Option Char} {t u : List Char} (h : WChunks pat rep prev t u) :
    containsSub q t = false → containsSub q u = false := by
  induction h with
  | last p b hb =>
    intro hqt
    exact hqt
  | step p b m t' u' hb hm hlen hr ih =>
    intro hqt
    obtain ⟨hci, hbdry, hafter0⟩ := wMatchAt_parts hm
    have hmp : pyLower m = pyLower pat := ciPref_extract hci hlen
    have hml : lastWordOk m = true := pyLower_eq_last hmp hpl
    have hafterT : bdryAfter t' = true := by
      have hd : (m ++ t').drop pat.length = t' := by
        rw [← hlen]
        exact List.drop_left m t'
      rw [hd] at hafter0
      exact hafter0
    have hprevR : bdryOpt (lastOpt (lastOpt p b) m) = false :=
      bdryOpt_lastOpt_of_lastWordOk hml _
    have hheadU : u'.head? = t'.head? := WChunks_head hr hprevR
    have hafterU : bdryAfter u' = true := by
      rw [bdryAfter_congr_head hheadU]
      exact hafterT
    have hblast : ∀ g, b.getLast? = Option.some g → isWordChar g = false := by
      intro g hg
      have hlo : lastOpt p b = Option.some g := by
        unfold lastOpt
        rw [hg]
      rw [hlo] at hbdry
      have hbg : (!isWordChar g) = true := hbdry
      cases hwg : isWordChar g
      · rfl
      · rw [hwg] at hbg
        cases hbg
    have hqt' : containsSub q t' = false := by
      by_contra hC2
      rw [Bool.not_eq_false] at hC2
      have htt : t' <:+: b ++ m ++ t' := (List.suffix_append (b ++ m) t').isInfix
      have hcc := containsSub_of_infix htt hC2
      rw [hqt] at hcc
      cases hcc
    have hu' := ih hqt'
    by_contra hC
    rw [Bool.not_eq_false] at hC
    have hinf : q <:+: (b ++ rep) ++ u' := containsSub_iff_isInfix.mp hC
    rw [List.append_assoc] at hinf
    rcases infix_append_cases hinf with h1 | h1 | ⟨v, w, hvw, hv, hw, hvb, hwrest⟩
    · have hqb := containsSub_iff_isInfix.mpr h1
      have hbt : b <:+: b ++ m ++ t' := by
        rw [List.append_assoc]
        exact (List.prefix_append b _).isInfix
      have hcc := containsSub_of_infix hbt hqb
      rw [hqt] at hcc
      cases hcc
    · rcases infix_append_cases h1 with h2 | h2 | ⟨v, w, hvw, hv, hw, hvr, hwu⟩
      · have hcc := containsSub_iff_isInfix.mpr h2
        rw [hsub] at hcc
        cases hcc
      · have hcc := containsSub_iff_isInfix.mpr h2
        rw [hu'] at hcc
        cases hcc
      · cases w with
        | nil => exact hw rfl
        | cons a w' =>
          obtain ⟨r, hru⟩ := hwu
          have hua : u'.head? = Option.some a := by
            rw [← hru]
            rfl
          have haw : isWordChar a = true := by
            have hmem : a ∈ q := by
              rw [hvw]
              exact List.mem_append_right v (by simp)
            exact allWord_mem hqw hmem
          cases hu2 : u' with
          | nil =>
            rw [hu2] at hua
            cases hua
          | cons a2 z =>
            rw [hu2] at hua
            simp only [List.head?_cons] at hua
            have ha2 := Option.some.inj hua
            rw [hu2] at hafterU
            have hba : (!isWordChar a2) = true := hafterU
            rw [ha2, haw] at hba
            cases hba
    · obtain ⟨g, hg⟩ : ∃ g, v.getLast? = Option.some g := by
        cases hgl : v.getLast? with
        | none => exact absurd (List.getLast?_eq_none_iff.mp hgl) hv
        | some g => exact ⟨g, rfl⟩
      have hgb : b.getLast? = Option.some g := by
        obtain ⟨x, hx⟩ := hvb
        rw [← hx, List.getLast?_append_of_ne_nil x hv]
        exact hg
      have hgw : isWordChar g = true := by
        have hmem : g ∈ q := by
          rw [hvw]
          exact List.mem_append_left w (List.mem_of_mem_getLast? (by rw [hg]; exact rfl))
        exact allWord_mem hqw hmem
      have hbw := hblast g hgb
      rw [hgw] at hbw
      cases hbw

theorem isPySpace_not_word {c : Char} (h : isPySpace c = true) : isWordChar c = false := by
  unfold isPySpace at h
  simp only [Bool.or_eq_true, beq_iff_eq] at h
  rcases h with ((((h | h) | h) | h) | h) | h <;> subst h <;> decide

theorem pyStrip_decomp (l : List Char) :
    ∃ w₁ w₂, l = w₁ ++ (pyStrip l ++ w₂) ∧ (∀ c ∈ w₁, isPySpace c = true) ∧
      (∀ c ∈ w₂, isPySpace c = true) := by
  refine ⟨l.takeWhile isPySpace,
    ((l.dropWhile isPySpace).reverse.takeWhile isPySpace).reverse, ?_, ?_, ?_⟩
  · have h3 : (l.dropWhile isPySpace).reverse
        = (l.dropWhile isPySpace).reverse.takeWhile isPySpace
          ++ (l.dropWhile isPySpace).reverse.dropWhile isPySpace :=
      (List.takeWhile_append_dropWhile isPySpace _).symm
    have h2 : l.dropWhile isPySpace
        = pyStrip l ++ ((l.dropWhile isPySpace).reverse.takeWhile isPySpace).reverse := by
      unfold pyStrip
      calc l.dropWhile isPySpace
          = (l.dropWhile isPySpace).reverse.reverse := (List.reverse_reverse _).symm
        _ = ((l.dropWhile isPySpace).reverse.takeWhile isPySpace
            ++ (l.dropWhile isPySpace).reverse.dropWhile isPySpace).reverse := by
              rw [← h3]
        _ = ((l.dropWhile isPySpace).reverse.dropWhile isPySpace).reverse
            ++ ((l.dropWhile isPySpace).reverse.takeWhile isPySpace).reverse := by
              rw [List.reverse_append]
    calc l = l.takeWhile isPySpace ++ l.dropWhile isPySpace :=
          (List.takeWhile_append_dropWhile isPySpace l).symm
      _ = l.takeWhile isPySpace
          ++ (pyStrip l ++ ((l.dropWhile isPySpace).reverse.takeWhile isPySpace).reverse) := by
            rw [← h2]
  · intro c hc
    exact List.mem_takeWhile_imp hc
  · intro c hc
    rw [List.mem_reverse] at hc
    exact List.mem_takeWhile_imp hc

theorem pyStrip_isInfix (l : List Char) : pyStrip l <:+: l := by
  obtain ⟨w₁, w₂, hdec, _, _⟩ := pyStrip_decomp l
  exact ⟨w₁, w₂, by rw [List.append_assoc]; exact hdec.symm⟩

theorem pyStrip_no_occ {q l : List Char} (h : containsSub q l = false) :
    containsSub q (pyStrip l) = false := by
  by_contra hC
  rw [Bool.not_eq_false] at hC
  have h2 := containsSub_of_infix (pyStrip_isInfix l) hC
  rw [h] at h2
  cases h2

theorem wMatchAt_extend_right {q : List Char} {prev : Option Char} {S w₂ : List Char}
    (h : wMatchAt q prev S = true)
    (hw : ∀ c ∈ w₂, isWordChar c = false) :
    wMatchAt q prev (S ++ w₂) = true := by
  obtain ⟨hci, hbd, haft⟩ := wMatchAt_parts h
  have hlen := ciPref_length_le hci
  have h1 : ciPref q (S ++ w₂) = true := ciPref_append_of hci
  have hdrop : (S ++ w₂).drop q.length = S.drop q.length ++ w₂ := by
    rw [List.drop_append_eq_append_drop]
    have hz : q.length - S.length = 0 := by omega
    rw [hz, List.drop_zero]
  have h3 : bdryAfter ((S ++ w₂).drop q.length) = true := by
    rw [hdrop]
    cases hsd : S.drop q.length with
    | nil =>
      rw [List.nil_append]
      cases w₂ with
      | nil => rfl
      | cons a z =>
        have ha := hw a (by simp)
        show (!isWordChar a) = true
        rw [ha]
        rfl
    | cons d z =>
      rw [hsd] at haft
      have hd : (!isWordChar d) = true := haft
      show (!isWordChar d) = true
      exact hd
  unfold wMatchAt
  rw [h1, hbd, h3]
  rfl

theorem hasWordMatch_extend_right {q w₂ : List Char}
    (hw : ∀ c ∈ w₂, isWordChar c = false) :
    ∀ (core : List Char) (prev : Option Char),
    hasWordMatch q prev core = true → hasWordMatch q prev (core ++ w₂) = true := by
  intro core
  induction core with
  | nil =>
    intro prev h
    cases h
  | cons c s ih =>
    intro prev h
    have h' : (wMatchAt q prev (c :: s) || hasWordMatch q (Option.some c) s) = true := h
    show (wMatchAt q prev (c :: (s ++ w₂)) || hasWordMatch q (Option.some c) (s ++ w₂)) = true
    rw [Bool.or_eq_true] at h'
    rw [Bool.or_eq_true]
    rcases h' with h' | h'
    · exact Or.inl (wMatchAt_extend_right h' hw)
    · exact Or.inr (ih (Option.some c) h')

theorem hasWordMatch_extend_left {q core : List Char}
    (h : hasWordMatch q Option.none core = true) :
    ∀ (w₁ : List Char), (∀ c ∈ w₁, isWordChar c = false) →
    ∀ prev, bdryOpt prev = true → hasWordMatch q prev (w₁ ++ core) = true := by
  intro w₁
  induction w₁ with
  | nil =>
    intro _ prev hbp
    rw [List.nil_append]
    have hcongr : bdryOpt prev = bdryOpt Option.none := by rw [hbp]; rfl
    rw [hasWordMatch_bdry_congr hcongr]
    exact h
  | cons d w' ih =>
    intro hw prev hbp
    show (wMatchAt q prev (d :: (w' ++ core)) || hasWordMatch q (Option.some d) (w' ++ core)) = true
    rw [Bool.or_eq_true]
    right
    refine ih (fun c hc => hw c (by simp [hc])) (Option.some d) ?_
    show (!isWordChar d) = true
    rw [hw d (by simp)]
    rfl

theorem pyStrip_no_match {q l : List Char} (h : hasWordMatch q Option.none l = false) :
    hasWordMatch q Option.none (pyStrip l) = false := by
  by_contra hC
  rw [Bool.not_eq_false] at hC
  obtain ⟨w₁, w₂, hdec, hw₁, hw₂⟩ := pyStrip_decomp l
  have hw₁' : ∀ c ∈ w₁, isWordChar c = false := fun c hc => isPySpace_not_word (hw₁ c hc)
  have hw₂' : ∀ c ∈ w₂, isWordChar c = false := fun c hc => isPySpace_not_word (hw₂ c hc)
  have h1 := hasWordMatch_extend_right hw₂' (pyStrip l) Option.none hC
  have h2 := hasWordMatch_extend_left h1 w₁ hw₁' Option.none rfl
  rw [← hdec] at h2
  rw [h] at h2
  cases h2

theorem replaceAll_pres_occ {pat rep q : List Char} (hpat : pat ≠ [])
    (hchk : repSpanFree q rep = true) {l : List Char} (h : containsSub q l = false) :
    containsSub q (replaceAll pat rep l) = false :=
  RChunks_no_occ hchk (replaceAll_chunks hpat l) (Or.inl h)

theorem replaceAll_kills_pat {pat rep : List Char} (hpat : pat ≠ [])
    (hchk : repSpanFree pat rep = true) (l : List Char) :
    containsSub pat (replaceAll pat rep l) = false :=
  RChunks_no_occ hchk (replaceAll_chunks hpat l) (Or.inr rfl)

theorem subWord_pres_occ {pat rep q : List Char} (hpat : pat ≠ [])
    (hqw : allWordChars q = true) (hsub : containsSub q rep = false)
    (hpl : lastWordOk pat = true) {l : List Char} (h : containsSub q l = false) :
    containsSub q (subWord pat rep l) = false :=
  WChunks_no_occ hqw hsub hpl (subWord_chunks hpat l) h

theorem subWord_pres_match {pat rep q : List Char} (hpat : pat ≠ [])
    (hspan : wSpanOK q rep = true) (hq : q ≠ [])
    (hrw : allWordChars rep = true) (hrh : headWordOk rep = true)
    (hrl : lastWordOk rep = true) (hph : headWordOk pat = true)
    (hpl : lastWordOk pat = true) {l : List Char}
    (h : hasWordMatch q Option.none l = false) :
    hasWordMatch q Option.none (subWord pat rep l) = false :=
  WChunks_no_match hspan hq hrw hrh hrl hph hpl (subWord_chunks hpat l) (Or.inl h)

theorem subWord_kills_pat {pat rep : List Char}
    (hspan : wSpanOK pat rep = true) (hpat : pat ≠ [])
    (hrw : allWordChars rep = true) (hrh : headWordOk rep = true)
    (hrl : lastWordOk rep = true) (hph : headWordOk pat = true)
    (hpl : lastWordOk pat = true) (l : List Char) :
    hasWordMatch pat Option.none (subWord pat rep l) = false :=
  WChunks_no_match hspan hpat hrw hrh hrl hph hpl (subWord_chunks hpat l) (Or.inr rfl)

theorem localizeTextL_eq_of_ne (x : List Char) (hx : ¬ (x.isEmpty = true)) :
    localizeTextL x =
      pyStrip (subWord "nghiêm trọng".data "căng".data
        (subWord "nhanh".data "lẹ".data
          (subWord "không".data "hông".data
            (replaceAll "tôi".data "em".data
              (replaceAll "Tôi".data "Em".data
                (replaceAll "bạn".data "mình".data
                  (replaceAll "Bạn".data "Mình".data x))))))) := by
  unfold localizeTextL
  rw [if_neg hx]

set_option maxRecDepth 8192 in
theorem localize_facts (l : List Char) :
    containsSub "Bạn".data (localizeTextL l) = false ∧
    containsSub "bạn".data (localizeTextL l) = false ∧
    containsSub "Tôi".data (localizeTextL l) = false ∧
    containsSub "tôi".data (localizeTextL l) = false ∧
    hasWordMatch "không".data Option.none (localizeTextL l) = false ∧
    hasWordMatch "nhanh".data Option.none (localizeTextL l) = false ∧
    hasWordMatch "nghiêm trọng".data Option.none (localizeTextL l) = false ∧
    pyStrip (localizeTextL l) = localizeTextL l := by
  by_cases h0 : l.isEmpty = true
  · unfold localizeTextL
    rw [if_pos h0]
    exact ⟨by decide, by decide, by decide, by decide, rfl, rfl, rfl, rfl⟩
  · rw [localizeTextL_eq_of_ne l h0]
    refine ⟨?_, ?_, ?_, ?_, ?_, ?_, ?_, ?_⟩
    · exact pyStrip_no_occ (subWord_pres_occ (by decide) (by decide) (by decide) (by decide)
        (subWord_pres_occ (by decide) (by decide) (by decide) (by decide)
          (subWord_pres_occ (by decide) (by decide) (by decide) (by decide)
            (replaceAll_pres_occ (by decide) (by decide)
              (replaceAll_pres_occ (by decide) (by decide)
                (replaceAll_pres_occ (by decide) (by decide)
                  (replaceAll_kills_pat (by decide) (by decide) l)))))))
    · exact pyStrip_no_occ (subWord_pres_occ (by decide) (by decide) (by decide) (by decide)
        (subWord_pres_occ (by decide) (by decide) (by decide) (by decide)
          (subWord_pres_occ (by decide) (by decide) (by decide) (by decide)
            (replaceAll_pres_occ (by decide) (by decide)
              (replaceAll_pres_occ (by decide) (by decide)
                (replaceAll_kills_pat (by decide) (by decide) _))))))
    · exact pyStrip_no_occ (subWord_pres_occ (by decide) (by decide) (by decide) (by decide)
        (subWord_pres_occ (by decide) (by decide) (by decide) (by decide)
          (subWord_pres_occ (by decide) (by decide) (by decide) (by decide)
            (replaceAll_pres_occ (by decide) (by decide)
              (replaceAll_kills_pat (by decide) (by decide) _)))))
    · exact pyStrip_no_occ (subWord_pres_occ (by decide) (by decide) (by decide) (by decide)
        (subWord_pres_occ (by decide) (by decide) (by decide) (by decide)
          (subWord_pres_occ (by decide) (by decide) (by decide) (by decide)
            (replaceAll_kills_pat (by decide) (by decide) _))))
    · exact pyStrip_no_match (subWord_pres_match (by decide) (by decide) (by decide)
        (by decide) (by decide) (by decide) (by decide) (by decide)
        (subWord_pres_match (by decide) (by decide) (by decide) (by decide) (by decide)
          (by decide) (by decide) (by decide)
          (subWord_kills_pat (by decide) (by decide) (by decide) (by decide) (by decide)
            (by decide) (by decide) _)))
    · exact pyStrip_no_match (subWord_pres_match (by decide) (by decide) (by decide)
        (by decide) (by decide) (by decide) (by decide) (by decide)
        (subWord_kills_pat (by decide) (by decide) (by decide) (by decide) (by decide)
          (by decide) (by decide) _))
    · exact pyStrip_no_match (subWord_kills_pat (by decide) (by decide) (by decide)
        (by decide) (by decide) (by decide) (by decide) _)
    · exact pyStrip_idem _

theorem localizeTextL_idem (l : List Char) :
    localizeTextL (localizeTextL l) = localizeTextL l := by
  obtain ⟨hB, hb2, hT, ht2, hk, hn, hg, hs⟩ := localize_facts l
  by_cases h0 : (localizeTextL l).isEmpty = true
  · have hnil : localizeTextL l = [] := by
      cases hll : localizeTextL l with
      | nil => rfl
      | cons a z =>
        rw [hll] at h0
        cases h0
    rw [hnil]
    rfl
  · rw [localizeTextL_eq_of_ne _ h0]
    rw [replaceAll_id hB, replaceAll_id hb2, replaceAll_id hT, replaceAll_id ht2,
      subWord_id_of_no_match hk, subWord_id_of_no_match hn, subWord_id_of_no_match hg, hs]

/-- C8: the dialect localization transform `_localize_text` is idempotent on
its own output: for every string `s`, applying the transform twice yields the
same result as applying it once. -/
theorem localize_text_idempotent (s : String) :
    localizeText (localizeText s) = localizeText s := by
  show String.mk (localizeTextL (localizeTextL s.data)) = String.mk (localizeTextL s.data)
  exact congrArg String.mk (localizeTextL_idem s.data)

end ShrimpML
